import Mathlib

/-!
Verification development for the FRANZ capture-and-annotate pipeline
(`capture.py`): GDI screen capture, magenta visual annotations, PNG
encoding.

Shallow embedding conventions:

* A Python `bytearray` is a `List Nat` of byte values.  Writing through an
  index is modelled by `byteSet`, which returns `none` when the index is
  out of range **or negative**.  (A real Python `bytearray` raises
  `IndexError` for an index `≥ len` and interprets a negative index from
  the end of the buffer; the code under scrutiny must never do either, so
  the instrumented semantics flags both as a fault.  On the in-range,
  non-negative indices actually exercised by the guarded code the
  behaviour is identical to Python's.)  Consequently every drawing
  operation is `Option`-valued and `none` means "raised or wrapped".

* Python `int` arithmetic is exact, so it maps directly to `Int`.
  Python float expressions in the source are of the shape
  `int(rational expression)`: in the drawing and interpreter layer they
  are modelled as exact rationals represented by numerator/denominator
  pairs (`Int × Int`), truncated toward zero by `qtrunc` exactly as
  Python's `int()` truncates.  This exact-rational reading is an
  idealisation: an IEEE double computation can land on the other side of
  an integer (double rounding), observably so in `_norm` — Python's
  `int((290/1000.0)*100)` is `28` while the exact value is `29`.  The
  coordinate-conversion claim is therefore settled against the
  bit-faithful binary64 model `normFloat` below; the concrete inputs at
  which the interpreter-level theorems evaluate the idealized `norm` are
  points where the double and the exact computation agree.

* `math.hypot(a, b) > 20` on integers `a, b` is decided exactly by
  `a² + b² > 400` (both sides of the comparison are exactly
  representable, and `hypot` is correctly rounded on these magnitudes);
  `int(math.hypot(a, b))` is `Nat.sqrt (a² + b²)`.

* The transcendental calls `math.cos`, `math.sin`, `math.atan2` (used
  only by the arrowhead and burst primitives) are modelled by an
  uninterpreted parameter `TrigModel` supplying arbitrary exact
  rationals; every theorem about those primitives holds for every model,
  hence in particular for the values libm actually returns.
-/

namespace Franz

set_option maxRecDepth 100000

/-- RGBA color, as the 4-tuples of `capture.py`. -/
structure Color where
  r : Nat
  g : Nat
  b : Nat
  a : Nat
deriving DecidableEq, Repr

/-- Source constant `ACTION_PRIMARY = (255, 50, 200, 255)`. -/
def ACTION_PRIMARY : Color := ⟨255, 50, 200, 255⟩

/-- Source constant `ACTION_SECONDARY = (255, 180, 240, 255)`. -/
def ACTION_SECONDARY : Color := ⟨255, 180, 240, 255⟩

/-- Source constant `ACTION_OUTLINE = (40, 0, 30, 200)`. -/
def ACTION_OUTLINE : Color := ⟨40, 0, 30, 200⟩

/-- Instrumented `bytearray` byte write (see the header comment): `none`
flags an out-of-range or negative index. -/
def byteSet (d : List Nat) (i : Int) (v : Nat) : Option (List Nat) :=
  if 0 ≤ i ∧ i < (d.length : Int) then some (d.set i.toNat v) else none

/-- Source `_set_pixel`: bounds-guarded write of the four channel bytes at
`(y*w + x) << 2`. -/
def setPixel (d : List Nat) (w h : Nat) (x y : Int) (c : Color) : Option (List Nat) :=
  if 0 ≤ x ∧ x < (w : Int) ∧ 0 ≤ y ∧ y < (h : Int) then
    let i : Int := (y * w + x) * 4
    match byteSet d i c.r with
    | none => none
    | some d1 =>
      match byteSet d1 (i + 1) c.g with
      | none => none
      | some d2 =>
        match byteSet d2 (i + 2) c.b with
        | none => none
        | some d3 => byteSet d3 (i + 3) c.a
  else some d

/-- Python `range(a, b)` over `Int`. -/
def intRange (a b : Int) : List Int :=
  (List.range (b - a).toNat).map (fun i : Nat => a + (i : Int))

/-- Source `_set_pixel_thick`: `half = t >> 1`, then a
`(2*half+1) × (2*half+1)` block of guarded writes. -/
def setPixelThick (d : List Nat) (w h : Nat) (x y : Int) (c : Color) (t : Nat) :
    Option (List Nat) :=
  let half : Int := (t : Int) / 2
  List.foldlM (fun d dy =>
      List.foldlM (fun d dx => setPixel d w h (x + dx) (y + dy) c) d
        (intRange (-half) (half + 1)))
    d (intRange (-half) (half + 1))

/-- Loop body of source `_draw_line` (integer Bresenham), with explicit
fuel; exhausted fuel is `none` so that totality must be (and is) proved
rather than assumed.  The error update mirrors the source: `e2 = err << 1`
is computed once, then `err -= dy` on an x-step and `err += dx` on a
y-step. -/
def bres : Nat → List Nat → Nat → Nat → Int → Int → Int → Int → Int → Int → Int → Int →
    Int → Color → Nat → Option (List Nat)
  | 0, _, _, _, _, _, _, _, _, _, _, _, _, _, _ => none
  | Nat.succ fuel, d, w, h, x, y, x2, y2, sx, sy, dx, dy, err, c, t =>
    match setPixelThick d w h x y c t with
    | none => none
    | some d1 =>
      if x = x2 ∧ y = y2 then some d1
      else
        bres fuel d1 w h
          (if 2 * err > -dy then x + sx else x)
          (if 2 * err < dx then y + sy else y)
          x2 y2 sx sy dx dy
          ((if 2 * err > -dy then err - dy else err) + (if 2 * err < dx then dx else 0))
          c t

/-- Source `_draw_line`: all-quadrant integer Bresenham with thick stamps.
The fuel `dx + dy + 1` is shown sufficient in `bres_total`. -/
def drawLine (d : List Nat) (w h : Nat) (x1 y1 x2 y2 : Int) (c : Color) (t : Nat) :
    Option (List Nat) :=
  let dx := |x2 - x1|
  let dy := |y2 - y1|
  let sx : Int := if x1 < x2 then 1 else -1
  let sy : Int := if y1 < y2 then 1 else -1
  bres ((dx + dy).toNat + 1) d w h x1 y1 x2 y2 sx sy dx dy (dx - dy) c t

/-- The stepped points of the Bresenham loop, with the same fuel and the
same state updates as `bres` (used to state that `_draw_line` is exactly
"stamp a thick point at every stepped point"). -/
def bresPts : Nat → Int → Int → Int → Int → Int → Int → Int → Int → Int → List (Int × Int)
  | 0, _, _, _, _, _, _, _, _, _ => []
  | Nat.succ fuel, x, y, x2, y2, sx, sy, dx, dy, err =>
    (x, y) ::
      (if x = x2 ∧ y = y2 then []
       else
         bresPts fuel
           (if 2 * err > -dy then x + sx else x)
           (if 2 * err < dx then y + sy else y)
           x2 y2 sx sy dx dy
           ((if 2 * err > -dy then err - dy else err) + (if 2 * err < dx then dx else 0)))

/-- The stepped points of `drawLine x1 y1 x2 y2`. -/
def linePts (x1 y1 x2 y2 : Int) : List (Int × Int) :=
  let dx := |x2 - x1|
  let dy := |y2 - y1|
  let sx : Int := if x1 < x2 then 1 else -1
  let sy : Int := if y1 < y2 then 1 else -1
  bresPts ((dx + dy).toNat + 1) x1 y1 x2 y2 sx sy dx dy (dx - dy)

/-! Exact rationals as numerator/denominator pairs, for the source's float
expressions (see header comment). -/

/-- Rational `a / b` (Python float division on ints, kept exact). -/
def qdiv (a b : Int) : Int × Int := (a, b)

/-- Integer embedded as a rational. -/
def qofInt (n : Int) : Int × Int := (n, 1)

/-- Rational times an integer. -/
def qmulInt (q : Int × Int) (k : Int) : Int × Int := (q.1 * k, q.2)

/-- Rational addition. -/
def qadd (a b : Int × Int) : Int × Int := (a.1 * b.2 + b.1 * a.2, a.2 * b.2)

/-- Rational subtraction. -/
def qsub (a b : Int × Int) : Int × Int := qadd a (qmulInt b (-1))

/-- Python `int()` on a rational: truncation toward zero (`Int.tdiv` is
T-division).  A zero denominator never arises in the embedded code. -/
def qtrunc (q : Int × Int) : Int := if q.2 = 0 then 0 else Int.tdiv q.1 q.2

/-- Uninterpreted values of the transcendental float calls of the source
(see header comment).  `cosAt dy dx deg` stands for
`cos(atan2(dy, dx) + radians(deg))` (and `sinAt` its sine); `rayCos i n`
stands for `cos(2*pi*i/n)` (and `raySin` its sine).  Each is an arbitrary
exact rational, as a numerator/denominator pair. -/
structure TrigModel where
  cosAt : Int → Int → Int → Int × Int
  sinAt : Int → Int → Int → Int × Int
  rayCos : Nat → Nat → Int × Int
  raySin : Nat → Nat → Int × Int

/-- A concrete trig model (all values zero), used to evaluate paths that
never consult the model. -/
def zeroTrig : TrigModel :=
  ⟨fun _ _ _ => (0, 1), fun _ _ _ => (0, 1), fun _ _ => (0, 1), fun _ _ => (0, 1)⟩

/-- Source `_draw_dashed_line`: `dist = max(1, int(math.hypot(dx, dy)))`,
then for each `i ≤ dist` with `i % (dash+gap) < dash`, a thick point at
`(int(x1 + dx*i/dist), int(y1 + dy*i/dist))` (floats kept exact). -/
def drawDashedLine (d : List Nat) (w h : Nat) (x1 y1 x2 y2 : Int) (c : Color)
    (t dash gap : Nat) : Option (List Nat) :=
  let dx := x2 - x1
  let dy := y2 - y1
  let dist : Nat := max 1 (Nat.sqrt (dx * dx + dy * dy).toNat)
  let cycle := dash + gap
  List.foldlM (fun d i =>
      if i % cycle < dash then
        setPixelThick d w h
          (qtrunc (qadd (qofInt x1) (qmulInt (qdiv i dist) dx)))
          (qtrunc (qadd (qofInt y1) (qmulInt (qdiv i dist) dy)))
          c t
      else some d)
    d (List.range (dist + 1))

/-- Source `_draw_circle`: scan `[-r, r]²`; filled writes `dist² ≤ r²`,
stroked writes the annulus `(r-2)² ≤ dist² ≤ r²`. -/
def drawCircle (d : List Nat) (w h : Nat) (cx cy r : Int) (c : Color) (filled : Bool) :
    Option (List Nat) :=
  let r2 := r * r
  let inner2 := (r - 2) * (r - 2)
  List.foldlM (fun d oy =>
      List.foldlM (fun d ox =>
          let dist2 := ox * ox + oy * oy
          if filled then
            if dist2 ≤ r2 then setPixel d w h (cx + ox) (cy + oy) c else some d
          else
            if inner2 ≤ dist2 ∧ dist2 ≤ r2 then setPixel d w h (cx + ox) (cy + oy) c
            else some d)
        d (intRange (-r) (r + 1)))
    d (intRange (-r) (r + 1))

/-- Edge function of source `_fill_triangle`. -/
def triEdge (px py ax ay bx bY : Int) : Int :=
  (px - bx) * (ay - bY) - (ax - bx) * (py - bY)

/-- Source `_fill_triangle`: clamped bounding-box scan with the three-edge
sign test. -/
def fillTriangle (d : List Nat) (w h : Nat) (x1 y1 x2 y2 x3 y3 : Int) (c : Color) :
    Option (List Nat) :=
  let loX := max 0 (min x1 (min x2 x3))
  let hiX := min ((w : Int) - 1) (max x1 (max x2 x3))
  let loY := max 0 (min y1 (min y2 y3))
  let hiY := min ((h : Int) - 1) (max y1 (max y2 y3))
  List.foldlM (fun d py =>
      List.foldlM (fun d px =>
          let d1 := triEdge px py x1 y1 x2 y2
          let d2 := triEdge px py x2 y2 x3 y3
          let d3 := triEdge px py x3 y3 x1 y1
          if ¬((d1 < 0 ∨ d2 < 0 ∨ d3 < 0) ∧ (d1 > 0 ∨ d2 > 0 ∨ d3 > 0)) then
            setPixel d w h px py c
          else some d)
        d (intRange loX (hiX + 1)))
    d (intRange loY (hiY + 1))

/-- Source `_draw_arrowhead`: the two barb endpoints are
`int(x2 - length*cos(angle ∓ ha))`, `int(y2 - length*sin(angle ∓ ha))`
with `angle = atan2(y2-y1, x2-x1)` and `ha = radians(angleDeg)`; the trig
values come from the uninterpreted model (`cosAt dy dx (-angleDeg)` is
`cos(angle - ha)`, `cosAt dy dx angleDeg` is `cos(angle + ha)`).  The
`angle_deg` parameter is an integer in every call site (30 and 25). -/
def drawArrowhead (trig : TrigModel) (d : List Nat) (w h : Nat) (x1 y1 x2 y2 : Int)
    (c : Color) (t : Nat) (len angleDeg : Int) : Option (List Nat) :=
  let dy := y2 - y1
  let dx := x2 - x1
  let lx := qtrunc (qsub (qofInt x2) (qmulInt (trig.cosAt dy dx (-angleDeg)) len))
  let ly := qtrunc (qsub (qofInt y2) (qmulInt (trig.sinAt dy dx (-angleDeg)) len))
  let rx := qtrunc (qsub (qofInt x2) (qmulInt (trig.cosAt dy dx angleDeg) len))
  let ry := qtrunc (qsub (qofInt y2) (qmulInt (trig.sinAt dy dx angleDeg) len))
  match drawLine d w h x2 y2 lx ly c t with
  | none => none
  | some d1 =>
    match drawLine d1 w h x2 y2 rx ry c t with
    | none => none
    | some d2 => fillTriangle d2 w h x2 y2 lx ly rx ry c

/-- Source `_draw_dashed_arrow`: dashed shaft then arrowhead with
thickness `max t 3`. -/
def drawDashedArrow (trig : TrigModel) (d : List Nat) (w h : Nat) (x1 y1 x2 y2 : Int)
    (c : Color) (t dash gap : Nat) (headLen headDeg : Int) : Option (List Nat) :=
  match drawDashedLine d w h x1 y1 x2 y2 c t dash gap with
  | none => none
  | some d1 => drawArrowhead trig d1 w h x1 y1 x2 y2 c (max t 3) headLen headDeg

/-- Source `_GLYPH_CURSOR` (rows copied verbatim, including the two
11-character rows of the originals). -/
def GLYPH_CURSOR : List (List Char) :=
  List.map String.toList
    [ "#           ",
      "##          ",
      "#.#         ",
      "#..#        ",
      "#...#       ",
      "#....#      ",
      "#.....#     ",
      "#......#    ",
      "#.......#   ",
      "#........#  ",
      "#.....#####",
      "#..#..#     ",
      "#.# #..#    ",
      "##  #..#    ",
      "#    #..#   ",
      "     ###    " ]

/-- Source `_GLYPH_CURSOR_RIGHT`. -/
def GLYPH_CURSOR_RIGHT : List (List Char) :=
  List.map String.toList
    [ "#           ",
      "##          ",
      "#.#         ",
      "#..#        ",
      "#...#       ",
      "#....#      ",
      "#.....#     ",
      "#......#    ",
      "#.......#   ",
      "#........#  ",
      "#.....#####",
      "#..#..# ##  ",
      "#.# #..##.# ",
      "##  #..### ",
      "#    #..#   ",
      "     ###    " ]

/-- Source `_GLYPH_IBEAM`. -/
def GLYPH_IBEAM : List (List Char) :=
  List.map String.toList
    [ " ### ",
      "  #  ",
      "  #  ",
      "  #  ",
      "  #  ",
      "  #  ",
      "  #  ",
      "  #  ",
      "  #  ",
      "  #  ",
      "  #  ",
      "  #  ",
      "  #  ",
      " ### " ]

/-- Source `_IBEAM_W = len(_GLYPH_IBEAM[0])`. -/
def IBEAM_W : Nat := (GLYPH_IBEAM.headD []).length

/-- Source `_IBEAM_H = len(_GLYPH_IBEAM)`. -/
def IBEAM_H : Nat := GLYPH_IBEAM.length

/-- Source `_draw_glyph`: `'#'` cells in the primary color, `'.'` cells in
the outline color, spaces skipped; each cell blitted as a
`scale × scale` block. -/
def drawGlyph (d : List Nat) (w h : Nat) (x y : Int) (glyph : List (List Char))
    (primary outline : Color) (scale : Nat) : Option (List Nat) :=
  List.foldlM (fun d riRow =>
      List.foldlM (fun d ciCh =>
          if ciCh.2 = ' ' then some d
          else
            let clr := if ciCh.2 = '#' then primary else outline
            List.foldlM (fun d sy =>
                List.foldlM (fun d sx =>
                    setPixel d w h (x + (ciCh.1 : Int) * scale + (sx : Int))
                      (y + (riRow.1 : Int) * scale + (sy : Int)) clr)
                  d (List.range scale))
              d (List.range scale))
        d riRow.2.enum)
    d glyph.enum

/-- Source `_draw_burst`: `rays` lines from inner to outer radius along
uninterpreted ray directions (`rayCos i rays` models `cos(2*pi*i/rays)`).
Endpoints are `int(x + r * cos_a)` etc., floats kept exact. -/
def drawBurst (trig : TrigModel) (d : List Nat) (w h : Nat) (x y : Int) (c : Color)
    (rIn rOut : Int) (rays t : Nat) : Option (List Nat) :=
  List.foldlM (fun d i =>
      drawLine d w h
        (qtrunc (qadd (qofInt x) (qmulInt (trig.rayCos i rays) rIn)))
        (qtrunc (qadd (qofInt y) (qmulInt (trig.raySin i rays) rIn)))
        (qtrunc (qadd (qofInt x) (qmulInt (trig.rayCos i rays) rOut)))
        (qtrunc (qadd (qofInt y) (qmulInt (trig.raySin i rays) rOut)))
        c t)
    d (List.range rays)

/-- Source `_norm`: `int((coord / 1000.0) * extent)` — float division and
product kept exact, truncated toward zero by `int()`.  (Exact-rational
idealization, used by the interpreter layer: it can differ by one from
the double computation at double-rounding points such as `(290, 100)`;
see `normFloat` for the bit-faithful binary64 reading, against which the
coordinate-conversion claim is settled.) -/
def norm (coord : Int) (extent : Nat) : Int :=
  qtrunc (qmulInt (qdiv coord 1000) (extent : Int))

/-! Exact IEEE-754 binary64 semantics for `_norm` (integer-only, hence
kernel-executable).  A positive rational is scaled by powers of two into
the mantissa window `[2^52, 2^53)`, rounded to the nearest integer
mantissa with ties to even, and kept as the value `m * 2^t`.  Overflow
(`≥ 2^1024`, where Python raises `OverflowError`) and the subnormal
range are outside the modelled domain — every value evaluated in this
file is an ordinary normal number. -/

/-- Scale the positive rational `n/d` up by doubling `n` until
`n/d ≥ 2^52`, decrementing the binary exponent at each step.  The fuel
bounds the doublings; `1200` covers the entire binary64 range. -/
def flUp : Nat → Nat → Nat → Int → Nat × Int
  | 0, n, _, t => (n, t)
  | Nat.succ fuel, n, d, t =>
    if n < 2 ^ 52 * d then flUp fuel (2 * n) d (t - 1) else (n, t)

/-- Scale the rational `n/d` down by doubling `d` until `n/d < 2^53`,
incrementing the binary exponent at each step. -/
def flDown : Nat → Nat → Nat → Int → Nat × Int
  | 0, _, d, t => (d, t)
  | Nat.succ fuel, n, d, t =>
    if 2 ^ 53 * d ≤ n then flDown fuel n (2 * d) (t + 1) else (d, t)

/-- Round the scaled ratio `n/d` to the nearest integer mantissa, ties
to even. -/
def rneMant (n d : Nat) : Nat :=
  let m0 := n / d
  let r := n % d
  if 2 * r < d then m0
  else if d < 2 * r then m0 + 1
  else if m0 % 2 = 0 then m0 else m0 + 1

/-- Round the rational `n/d` (`d > 0`) to the nearest binary64 value
(round-to-nearest, ties to even), as mantissa and exponent with value
`m * 2^t`. -/
def flRat (n d : Nat) : Nat × Int :=
  if n = 0 then (0, 0)
  else
    let p1 := flUp 1200 n d 0
    let p2 := flDown 1200 p1.1 d p1.2
    (rneMant p1.1 p2.1, p2.2)

/-- Truncation toward zero of the nonnegative double `m * 2^t`
(Python `int()`). -/
def truncDbl (m : Nat) (t : Int) : Nat :=
  if 0 ≤ t then m * 2 ^ t.toNat else m / 2 ^ (-t).toNat

/-- Source `_norm` under exact binary64 semantics:
`int((coord / 1000.0) * extent)`, where the division by `1000.0` and the
product with `extent` each round to nearest-even and `int()` truncates
toward zero.  Rounding and truncation are sign-symmetric, so the sign of
`coord` is factored out. -/
def normFloat (coord : Int) (extent : Nat) : Int :=
  let p1 := flRat coord.natAbs 1000
  let p2 :=
    if 0 ≤ p1.2 then flRat (p1.1 * extent * 2 ^ p1.2.toNat) 1
    else flRat (p1.1 * extent) (2 ^ (-p1.2).toNat)
  let v := truncDbl p2.1 p2.2
  if coord < 0 then -(v : Int) else (v : Int)

/-- Source `_movement_trail`: if a prior point exists and
`math.hypot(x - px, y - py) > 20` (decided exactly by the squared
comparison), a secondary dashed arrow from the prior point to `(x, y)`. -/
def movementTrail (trig : TrigModel) (d : List Nat) (w h : Nat) (x y : Int)
    (px py : Option Int) : Option (List Nat) :=
  match px, py with
  | some px, some py =>
    if (x - px) * (x - px) + (y - py) * (y - py) > 400 then
      drawDashedArrow trig d w h px py x y ACTION_SECONDARY 2 6 4 12 30
    else some d
  | _, _ => some d

/-- Source `_annotate_left_click`: trail, 8-ray burst (14→24), cursor
glyph. -/
def annotateLeftClick (trig : TrigModel) (d : List Nat) (w h : Nat) (x y : Int)
    (px py : Option Int) : Option (List Nat) :=
  match movementTrail trig d w h x y px py with
  | none => none
  | some d1 =>
    match drawBurst trig d1 w h x y ACTION_PRIMARY 14 24 8 2 with
    | none => none
    | some d2 => drawGlyph d2 w h x y GLYPH_CURSOR ACTION_PRIMARY ACTION_OUTLINE 1

/-- Source `_annotate_right_click`: trail, square outline of half-width
20 from four lines, right-cursor glyph. -/
def annotateRightClick (trig : TrigModel) (d : List Nat) (w h : Nat) (x y : Int)
    (px py : Option Int) : Option (List Nat) :=
  match movementTrail trig d w h x y px py with
  | none => none
  | some d1 =>
    match drawLine d1 w h (x - 20) (y - 20) (x + 20) (y - 20) ACTION_PRIMARY 2 with
    | none => none
    | some d2 =>
      match drawLine d2 w h (x + 20) (y - 20) (x + 20) (y + 20) ACTION_PRIMARY 2 with
      | none => none
      | some d3 =>
        match drawLine d3 w h (x + 20) (y + 20) (x - 20) (y + 20) ACTION_PRIMARY 2 with
        | none => none
        | some d4 =>
          match drawLine d4 w h (x - 20) (y + 20) (x - 20) (y - 20) ACTION_PRIMARY 2 with
          | none => none
          | some d5 => drawGlyph d5 w h x y GLYPH_CURSOR_RIGHT ACTION_PRIMARY ACTION_OUTLINE 1

/-- Source `_annotate_double_click`: trail, circles of radius 18 and 28,
burst (30→38), cursor glyph. -/
def annotateDoubleClick (trig : TrigModel) (d : List Nat) (w h : Nat) (x y : Int)
    (px py : Option Int) : Option (List Nat) :=
  match movementTrail trig d w h x y px py with
  | none => none
  | some d1 =>
    match drawCircle d1 w h x y 18 ACTION_PRIMARY false with
    | none => none
    | some d2 =>
      match drawCircle d2 w h x y 28 ACTION_PRIMARY false with
      | none => none
      | some d3 =>
        match drawBurst trig d3 w h x y ACTION_PRIMARY 30 38 8 2 with
        | none => none
        | some d4 => drawGlyph d4 w h x y GLYPH_CURSOR ACTION_PRIMARY ACTION_OUTLINE 1

/-- The inline pre-trail of source `_annotate_drag` (lines 351–352): if a
prior point exists and `math.hypot(x1 - px, y1 - py) > 20`, a thin
secondary dashed arrow from the prior point to the drag *start*. -/
def dragPre (trig : TrigModel) (d : List Nat) (w h : Nat) (x1 y1 : Int)
    (px py : Option Int) : Option (List Nat) :=
  match px, py with
  | some px, some py =>
    if (x1 - px) * (x1 - px) + (y1 - py) * (y1 - py) > 400 then
      drawDashedArrow trig d w h px py x1 y1 ACTION_SECONDARY 1 4 4 8 30
    else some d
  | _, _ => some d

/-- Source `_annotate_drag`: pre-trail toward the drag *start* (its own
distance test, dashed arrow with `t=1, dash=4, gap=4, head_len=8`), then
filled start dot, primary dashed arrow start→end, stroked end circle. -/
def annotateDrag (trig : TrigModel) (d : List Nat) (w h : Nat) (x1 y1 x2 y2 : Int)
    (px py : Option Int) : Option (List Nat) :=
  match dragPre trig d w h x1 y1 px py with
  | none => none
  | some d1 =>
    match drawCircle d1 w h x1 y1 8 ACTION_PRIMARY true with
    | none => none
    | some d2 =>
      match drawDashedArrow trig d2 w h x1 y1 x2 y2 ACTION_PRIMARY 3 10 6 18 25 with
      | none => none
      | some d3 => drawCircle d3 w h x2 y2 10 ACTION_PRIMARY false

/-- Source `_annotate_type`: I-beam glyph at scale 2 centred on the point
(`//` is Python floor division, on positives), plus an underline. -/
def annotateType (d : List Nat) (w h : Nat) (x y : Int) : Option (List Nat) :=
  match drawGlyph d w h (x - ((IBEAM_W * 2) / 2 : Nat)) (y - ((IBEAM_H * 2) / 2 : Nat))
      GLYPH_IBEAM ACTION_PRIMARY ACTION_OUTLINE 2 with
  | none => none
  | some d1 =>
    drawLine d1 w h (x - 15) (y + (IBEAM_H : Int) + 4) (x + 15) (y + (IBEAM_H : Int) + 4)
      ACTION_PRIMARY 2

/-! The action interpreter (`_apply_annotations`).  Lines are lists of
characters; `str.find`, `str.rfind`, slicing and `strip` are modelled with
Python's semantics.  The `eval`-based argument parsing is modelled over
the fragment of Python expressions the action grammar exercises:
comma-separated integer literals (optionally signed) and quoted string
literals.  Any other argument text is modelled as an `eval` failure,
which the source catches and skips.  (Full Python `eval` accepts more —
e.g. arithmetic expressions — but no claim depends on such inputs.) -/

/-- Python `str.find`: first index of `c`, or `-1`. -/
def pyFind (s : List Char) (c : Char) : Int :=
  match s.findIdx? (· = c) with
  | some i => (i : Int)
  | none => -1

/-- Python `str.rfind`: last index of `c`, or `-1`. -/
def pyRFind (s : List Char) (c : Char) : Int :=
  match s.reverse.findIdx? (· = c) with
  | some i => (s.length : Int) - 1 - (i : Int)
  | none => -1

/-- Python slice-endpoint normalisation: negative indices count from the
end, then clamp to `[0, n]`. -/
def pyIdx (n : Nat) (i : Int) : Nat :=
  if i < 0 then (i + n).toNat else min i.toNat n

/-- Python `s[a:b]`. -/
def pySlice (s : List Char) (a b : Int) : List Char :=
  (s.take (pyIdx s.length b)).drop (pyIdx s.length a)

/-- Whitespace for `strip` and for spaces inside argument lists. -/
def isWS (c : Char) : Bool :=
  c = ' ' ∨ c = '\t' ∨ c = '\n' ∨ c = '\r'

/-- Python `str.strip()`. -/
def pyStrip (s : List Char) : List Char :=
  ((s.dropWhile isWS).reverse.dropWhile isWS).reverse

/-- Values produced by the modelled `eval`: integers and strings. -/
inductive PyVal where
  | vint (n : Int)
  | vstr (s : List Char)
deriving DecidableEq, Repr

/-- Decimal digit test. -/
def isDigit (c : Char) : Bool := '0' ≤ c ∧ c ≤ '9'

/-- Value of a digit string. -/
def digitsVal (ds : List Char) : Nat :=
  ds.foldl (fun acc c => acc * 10 + (c.toNat - 48)) 0

/-- Python 3 integer-literal well-formedness: nonempty, and a leading
zero only in an all-zero literal (`05` is a syntax error, `00` is not). -/
def litOk (ds : List Char) : Bool :=
  ds ≠ [] ∧ (ds.head? ≠ some '0' ∨ ds.all (· = '0'))

/-- The two Python quote characters (apostrophe and double quote). -/
def quoteChars : List Char := [Char.ofNat 39, Char.ofNat 34]

/-- One argument item: a signed integer literal or a quoted string
literal (no escapes); returns the value and the remaining input. -/
def parseItem (s : List Char) : Option (PyVal × List Char) :=
  match s with
  | [] => none
  | c :: rest =>
    if c = '-' ∨ c = '+' then
      let rest1 := rest.dropWhile isWS
      let ds := rest1.takeWhile isDigit
      let rem := rest1.dropWhile isDigit
      if litOk ds then
        some (PyVal.vint (if c = '-' then -(digitsVal ds : Int) else (digitsVal ds : Int)), rem)
      else none
    else if isDigit c then
      let ds := s.takeWhile isDigit
      let rem := s.dropWhile isDigit
      if litOk ds then some (PyVal.vint (digitsVal ds), rem) else none
    else if c ∈ quoteChars then
      let content := rest.takeWhile (· ≠ c)
      let rem := rest.dropWhile (· ≠ c)
      match rem with
      | _ :: rem1 => some (PyVal.vstr content, rem1)
      | [] => none
    else none

/-- Comma-separated items (with Python's optional trailing comma), by
fuel; each step consumes at least one character, so the fuel used by
`evalList` never runs out. -/
def parseItems : Nat → List Char → Option (List PyVal)
  | 0, _ => none
  | Nat.succ fuel, s =>
    match parseItem s with
    | none => none
    | some (v, rem) =>
      let rem1 := rem.dropWhile isWS
      match rem1 with
      | [] => some [v]
      | c :: rest =>
        if c = ',' then
          let rest1 := rest.dropWhile isWS
          if rest1 = [] then some [v]
          else
            match parseItems fuel rest1 with
            | some vs => some (v :: vs)
            | none => none
        else none

/-- Model of `eval("[" + inner + "]", no builtins)` over the supported
fragment; `none` models any exception caught by the source's bare
`except`. -/
def evalList (s : List Char) : Option (List PyVal) :=
  let s1 := s.dropWhile isWS
  if s1 = [] then some [] else parseItems (s1.length + 1) s1

/-- Python `int(v)`: identity on ints; strings are stripped, optionally
signed, and must be all digits (otherwise `int()` raises — which the
source does *not* catch).  (Python also accepts underscore separators in
the string form; such inputs are not exercised by any claim.) -/
def pyIntOf : PyVal → Option Int
  | PyVal.vint n => some n
  | PyVal.vstr s =>
    let s1 := pyStrip s
    match s1 with
    | c :: rest =>
      if c = '-' ∨ c = '+' then
        if rest ≠ [] ∧ rest.all isDigit then
          some (if c = '-' then -(digitsVal rest : Int) else (digitsVal rest : Int))
        else none
      else if s1.all isDigit then some (digitsVal s1) else none
    | [] => none

/-- Interpreter state: the buffer plus the prior point `(px, py)`. -/
abbrev AnnState := List Nat × (Option Int × Option Int)

/-- One iteration of the `_apply_annotations` loop on one action line:
locate `(`, strip the name, `eval` the slice up to the *last* `)` (one
before the end when there is none), then dispatch on the name with the
arity guards of the source `match`.  `none` models an uncaught exception
(a failing `int()`, or a faulting buffer write). -/
def lineStep (trig : TrigModel) (w h : Nat) (st : AnnState) (line : List Char) :
    Option AnnState :=
  let paren := pyFind line '('
  if paren = -1 then some st
  else
    let name := pyStrip (pySlice line 0 paren)
    match evalList (pySlice line (paren + 1) (pyRFind line ')')) with
    | none => some st
    | some args =>
      if name = "left_click".toList then
        match args with
        | a0 :: a1 :: _ =>
          match pyIntOf a0, pyIntOf a1 with
          | some a, some b =>
            let x := norm a w
            let y := norm b h
            match annotateLeftClick trig st.1 w h x y st.2.1 st.2.2 with
            | none => none
            | some buf2 => some (buf2, (some x, some y))
          | _, _ => none
        | _ => some st
      else if name = "right_click".toList then
        match args with
        | a0 :: a1 :: _ =>
          match pyIntOf a0, pyIntOf a1 with
          | some a, some b =>
            let x := norm a w
            let y := norm b h
            match annotateRightClick trig st.1 w h x y st.2.1 st.2.2 with
            | none => none
            | some buf2 => some (buf2, (some x, some y))
          | _, _ => none
        | _ => some st
      else if name = "double_left_click".toList then
        match args with
        | a0 :: a1 :: _ =>
          match pyIntOf a0, pyIntOf a1 with
          | some a, some b =>
            let x := norm a w
            let y := norm b h
            match annotateDoubleClick trig st.1 w h x y st.2.1 st.2.2 with
            | none => none
            | some buf2 => some (buf2, (some x, some y))
          | _, _ => none
        | _ => some st
      else if name = "drag".toList then
        match args with
        | a0 :: a1 :: a2 :: a3 :: _ =>
          match pyIntOf a0, pyIntOf a1, pyIntOf a2, pyIntOf a3 with
          | some a, some b, some a2v, some b2v =>
            let x1 := norm a w
            let y1 := norm b h
            let x2 := norm a2v w
            let y2 := norm b2v h
            match annotateDrag trig st.1 w h x1 y1 x2 y2 st.2.1 st.2.2 with
            | none => none
            | some buf2 => some (buf2, (some x2, some y2))
          | _, _, _, _ => none
        | _ => some st
      else if name = "type".toList then
        match st.2.1, st.2.2 with
        | some xv, some yv =>
          match annotateType st.1 w h xv yv with
          | none => none
          | some buf2 => some (buf2, st.2)
        | _, _ => some st
      else some st

/-- Source `_apply_annotations`: fold `lineStep` over the action lines
starting from "no prior point", returning the final buffer. -/
def applyAnns (trig : TrigModel) (rgba : List Nat) (w h : Nat) (acts : List (List Char)) :
    Option (List Nat) :=
  (List.foldlM (fun st line => lineStep trig w h st line) ((rgba, (none, none)) : AnnState)
      acts).map Prod.fst

/-- Classification of one action line, mirroring exactly the parse/guard
chain of `lineStep` but discarding the buffer: which action the line
denotes, `skip` for a line discarded by the source, `crash` when an
`int()` conversion would raise. -/
inductive PAct where
  | skip
  | crash
  | lclick (a b : Int)
  | rclick (a b : Int)
  | dclick (a b : Int)
  | pdrag (a b a2 b2 : Int)
  | ptype
deriving DecidableEq, Repr

/-- The parse/dispatch decision of `lineStep`, as a pure function of the
line. -/
def classify (line : List Char) : PAct :=
  let paren := pyFind line '('
  if paren = -1 then PAct.skip
  else
    let name := pyStrip (pySlice line 0 paren)
    match evalList (pySlice line (paren + 1) (pyRFind line ')')) with
    | none => PAct.skip
    | some args =>
      if name = "left_click".toList then
        match args with
        | a0 :: a1 :: _ =>
          match pyIntOf a0, pyIntOf a1 with
          | some a, some b => PAct.lclick a b
          | _, _ => PAct.crash
        | _ => PAct.skip
      else if name = "right_click".toList then
        match args with
        | a0 :: a1 :: _ =>
          match pyIntOf a0, pyIntOf a1 with
          | some a, some b => PAct.rclick a b
          | _, _ => PAct.crash
        | _ => PAct.skip
      else if name = "double_left_click".toList then
        match args with
        | a0 :: a1 :: _ =>
          match pyIntOf a0, pyIntOf a1 with
          | some a, some b => PAct.dclick a b
          | _, _ => PAct.crash
        | _ => PAct.skip
      else if name = "drag".toList then
        match args with
        | a0 :: a1 :: a2 :: a3 :: _ =>
          match pyIntOf a0, pyIntOf a1, pyIntOf a2, pyIntOf a3 with
          | some a, some b, some a2v, some b2v => PAct.pdrag a b a2v b2v
          | _, _, _, _ => PAct.crash
        | _ => PAct.skip
      else if name = "type".toList then PAct.ptype
      else PAct.skip

/-- What `lineStep` does for each classification (the fold semantics of
`_apply_annotations`, factored through `classify`; `lineStep_eq_pactStep`
proves the factoring). -/
def pactStep (trig : TrigModel) (w h : Nat) (st : AnnState) : PAct → Option AnnState
  | PAct.skip => some st
  | PAct.crash => none
  | PAct.lclick a b =>
    match annotateLeftClick trig st.1 w h (norm a w) (norm b h) st.2.1 st.2.2 with
    | none => none
    | some buf2 => some (buf2, (some (norm a w), some (norm b h)))
  | PAct.rclick a b =>
    match annotateRightClick trig st.1 w h (norm a w) (norm b h) st.2.1 st.2.2 with
    | none => none
    | some buf2 => some (buf2, (some (norm a w), some (norm b h)))
  | PAct.dclick a b =>
    match annotateDoubleClick trig st.1 w h (norm a w) (norm b h) st.2.1 st.2.2 with
    | none => none
    | some buf2 => some (buf2, (some (norm a w), some (norm b h)))
  | PAct.pdrag a b a2 b2 =>
    match annotateDrag trig st.1 w h (norm a w) (norm b h) (norm a2 w) (norm b2 h)
        st.2.1 st.2.2 with
    | none => none
    | some buf2 => some (buf2, (some (norm a2 w), some (norm b2 h)))
  | PAct.ptype =>
    match st.2.1, st.2.2 with
    | some xv, some yv =>
      match annotateType st.1 w h xv yv with
      | none => none
      | some buf2 => some (buf2, st.2)
    | _, _ => some st

/-! The PNG encoder (`_encode_png`).  `zlib.compress` is abstracted as an
arbitrary function parameter: the structural claims hold for every
compressor, in particular for zlib at level 6. -/

/-- The fixed 8-byte PNG signature `b"\x89PNG\r\n\x1a\n"`. -/
def pngSig : List Nat := [0x89, 0x50, 0x4E, 0x47, 0x0D, 0x0A, 0x1A, 0x0A]

/-- Big-endian 4-byte encoding (`struct.pack(">I", n)` for `n < 2³²`). -/
def be32 (n : Nat) : List Nat :=
  [n / 2 ^ 24 % 256, n / 2 ^ 16 % 256, n / 2 ^ 8 % 256, n % 256]

/-- One step of the standard reflected CRC-32 (polynomial `0xEDB88320`). -/
def crcByte : Nat → Nat → Nat
  | 0, c => c
  | Nat.succ k, c => crcByte k (if c % 2 = 1 then (c / 2) ^^^ 0xEDB88320 else c / 2)

/-- CRC-32 as computed by `zlib.crc32` (init and final xor `0xFFFFFFFF`). -/
def crc32 (bs : List Nat) : Nat :=
  (bs.foldl (fun c b => crcByte 8 (c ^^^ b % 256)) 0xFFFFFFFF) ^^^ 0xFFFFFFFF

/-- Source `_chunk`: `length ++ tag ++ body ++ crc32(tag + body)`. -/
def chunk (tag body : List Nat) : List Nat :=
  be32 body.length ++ tag ++ body ++ be32 (crc32 (tag ++ body))

/-- ASCII bytes of a chunk tag. -/
def tagBytes (s : String) : List Nat := s.toList.map Char.toNat

/-- Source IHDR body: `struct.pack(">IIBBBBB", w, h, 8, 6, 0, 0, 0)`. -/
def ihdrBody (w h : Nat) : List Nat := be32 w ++ be32 h ++ [8, 6, 0, 0, 0]

/-- Source raw scanline serialisation: for each row, a filter byte `0`
followed by the row's `w*4` buffer bytes. -/
def pngRaw (rgba : List Nat) (w h : Nat) : List Nat :=
  (List.range h).foldl
    (fun raw y => raw ++ 0 :: ((rgba.drop (y * (w * 4))).take (w * 4))) []

/-- Source `_encode_png`, with the compressor abstracted. -/
def encodePng (compress : List Nat → List Nat) (rgba : List Nat) (w h : Nat) : List Nat :=
  pngSig ++ chunk (tagBytes "IHDR") (ihdrBody w h) ++
    chunk (tagBytes "IDAT") (compress (pngRaw rgba w h)) ++ chunk (tagBytes "IEND") []

/-- Source `_bgra_to_rgba`, pixelwise: the slice assignments
`out[0::4] = bgra[2::4]` etc. amount to mapping each `b,g,r,a` quadruple
to `r,g,b,255`.  (On a length not divisible by 4 the Python slice
assignment raises; the claim restricts to multiples of 4, where the
readings agree, and the trailing under-4 remainder here is returned
unchanged, unreachable under that restriction.) -/
def bgraToRgba : List Nat → List Nat
  | b :: g :: r :: _ :: rest => r :: g :: b :: 255 :: bgraToRgba rest
  | other => other

/-! Resource model for the GDI layer (`_capture_bgra`,
`_downsample_bgra`).  Each Win32 call is recorded as a trace event in
source order.  The only call that can make the Python code *raise* is the
buffer read `(c_ubyte * n).from_address(bits.value)`: when
`CreateDIBSection` fails it leaves the `bits` pointer null and
`from_address(None)` raises `TypeError`; every other call merely returns
an error code that the source ignores.  `dibOk` says whether
`CreateDIBSection` succeeded; the returned flag says whether the function
ran to completion (versus raising at the read). -/

/-- Trace events: one per Win32 call in the two GDI functions. -/
inductive GEv where
  | getDC
  | releaseDC
  | createCompatibleDC
  | deleteDC
  | createDIBSection
  | createCompatibleBitmap
  | deleteObject
  | selectObject
  | bitBlt
  | stretchBlt
  | setDIBits
  | readBits
deriving DecidableEq, Repr

/-- Source `_capture_bgra` as a trace: `GetDC`, `CreateCompatibleDC`,
`CreateDIBSection`, `SelectObject`, `BitBlt`, the buffer read, then (only
if the read did not raise) `SelectObject`, `DeleteObject`, `DeleteDC`,
`ReleaseDC`. -/
def captureTrace (dibOk : Bool) : List GEv × Bool :=
  let pre := [GEv.getDC, GEv.createCompatibleDC, GEv.createDIBSection, GEv.selectObject,
    GEv.bitBlt, GEv.readBits]
  if dibOk then
    (pre ++ [GEv.selectObject, GEv.deleteObject, GEv.deleteDC, GEv.releaseDC], true)
  else
    (pre, false)

/-- Source `_downsample_bgra` as a trace (the destination
`CreateDIBSection` is the one whose pointer is read). -/
def downsampleTrace (dstDibOk : Bool) : List GEv × Bool :=
  let pre := [GEv.getDC, GEv.createCompatibleDC, GEv.createCompatibleDC,
    GEv.createCompatibleBitmap, GEv.selectObject, GEv.setDIBits, GEv.createDIBSection,
    GEv.selectObject, GEv.stretchBlt, GEv.readBits]
  if dstDibOk then
    (pre ++ [GEv.selectObject, GEv.selectObject, GEv.deleteObject, GEv.deleteObject,
      GEv.deleteDC, GEv.deleteDC, GEv.releaseDC], true)
  else
    (pre, false)

/-- Every acquired handle released: screen DCs (`GetDC`/`ReleaseDC`),
memory DCs (`CreateCompatibleDC`/`DeleteDC`), bitmaps
(`CreateDIBSection`+`CreateCompatibleBitmap`/`DeleteObject`). -/
def handlesBalanced (tr : List GEv) : Bool :=
  tr.count GEv.getDC = tr.count GEv.releaseDC ∧
    tr.count GEv.createCompatibleDC = tr.count GEv.deleteDC ∧
    tr.count GEv.createDIBSection + tr.count GEv.createCompatibleBitmap =
      tr.count GEv.deleteObject

/-! Safety and totality of the rasterizer.  The invariant threaded through
every drawing operation is `d.length = w*h*4`: each operation succeeds
(never `none`, i.e. never raises and never writes through a negative or
out-of-range index) and preserves the buffer length. -/

/-- Invariant-preserving totality of `List.foldlM` over `Option`. -/
theorem foldlM_total {α : Type} (f : List Nat → α → Option (List Nat)) (P : List Nat → Prop)
    (hf : ∀ d a, P d → ∃ d', f d a = some d' ∧ P d') :
    ∀ (l : List α) (d : List Nat), P d → ∃ d', List.foldlM f d l = some d' ∧ P d' := by
  intro l
  induction l with
  | nil => intro d hd; exact ⟨d, by simp, hd⟩
  | cons a l ih =>
    intro d hd
    obtain ⟨d1, h1, hp1⟩ := hf d a hd
    obtain ⟨d2, h2, hp2⟩ := ih d1 hp1
    refine ⟨d2, ?_, hp2⟩
    simp [List.foldlM_cons, h1, h2]

/-- An in-range `byteSet` succeeds and is a `List.set`. -/
theorem byteSet_some (d : List Nat) (i : Int) (v : Nat) (h0 : 0 ≤ i)
    (h1 : i < (d.length : Int)) : byteSet d i v = some (d.set i.toNat v) := by
  simp [byteSet, h0, h1]

/-- The byte index of an in-bounds pixel is in range. -/
theorem pixIdx_bounds {w h : Nat} {x y : Int} (hx0 : 0 ≤ x) (hx : x < (w : Int))
    (hy0 : 0 ≤ y) (hy : y < (h : Int)) :
    0 ≤ (y * w + x) * 4 ∧ (y * w + x) * 4 + 3 < ((w * h * 4 : Nat) : Int) := by
  have hw0 : (0 : Int) ≤ (w : Int) := Int.natCast_nonneg w
  have h1 : y * (w : Int) ≤ ((h : Int) - 1) * w :=
    mul_le_mul_of_nonneg_right (by linarith) hw0
  have h2 : ((h : Int) - 1) * w = (h : Int) * w - w := by ring
  have h3 : y * (w : Int) + x ≤ (h : Int) * w - 1 := by linarith
  have h4 : 0 ≤ y * (w : Int) := mul_nonneg hy0 hw0
  constructor
  · linarith
  · push_cast
    nlinarith

/-- A guarded pixel write on a well-sized buffer succeeds and preserves
the length (out-of-bounds coordinates are silently discarded). -/
theorem setPixel_total (d : List Nat) (w h : Nat) (x y : Int) (c : Color)
    (hd : d.length = w * h * 4) :
    ∃ d', setPixel d w h x y c = some d' ∧ d'.length = w * h * 4 := by
  by_cases hg : 0 ≤ x ∧ x < (w : Int) ∧ 0 ≤ y ∧ y < (h : Int)
  · obtain ⟨hx0, hx, hy0, hy⟩ := hg
    obtain ⟨hi0, hi3⟩ := pixIdx_bounds hx0 hx hy0 hy
    have hlen : ((d.length : Nat) : Int) = ((w * h * 4 : Nat) : Int) := by rw [hd]
    have b0 := byteSet_some d ((y * w + x) * 4) c.r hi0 (by rw [hlen]; linarith)
    have b1 := byteSet_some (d.set ((y * w + x) * 4).toNat c.r) ((y * w + x) * 4 + 1) c.g
      (by linarith) (by simp [List.length_set]; rw [hlen]; linarith)
    have b2 := byteSet_some ((d.set ((y * w + x) * 4).toNat c.r).set
        ((y * w + x) * 4 + 1).toNat c.g) ((y * w + x) * 4 + 2) c.b
      (by linarith) (by simp [List.length_set]; rw [hlen]; linarith)
    have b3 := byteSet_some (((d.set ((y * w + x) * 4).toNat c.r).set
        ((y * w + x) * 4 + 1).toNat c.g).set ((y * w + x) * 4 + 2).toNat c.b)
      ((y * w + x) * 4 + 3) c.a (by linarith) (by simp [List.length_set]; rw [hlen]; linarith)
    refine ⟨(((d.set ((y * w + x) * 4).toNat c.r).set ((y * w + x) * 4 + 1).toNat c.g).set
        ((y * w + x) * 4 + 2).toNat c.b).set ((y * w + x) * 4 + 3).toNat c.a, ?_, ?_⟩
    · simp only [setPixel, if_pos (⟨hx0, hx, hy0, hy⟩ :
        0 ≤ x ∧ x < (w : Int) ∧ 0 ≤ y ∧ y < (h : Int)), b0, b1, b2, b3]
    · simp [List.length_set, hd]
  · exact ⟨d, by simp [setPixel, hg], hd⟩

/-- A thick stamp succeeds and preserves the length. -/
theorem setPixelThick_total (d : List Nat) (w h : Nat) (x y : Int) (c : Color) (t : Nat)
    (hd : d.length = w * h * 4) :
    ∃ d', setPixelThick d w h x y c t = some d' ∧ d'.length = w * h * 4 := by
  unfold setPixelThick
  refine foldlM_total _ (fun d => d.length = w * h * 4) ?_ _ d hd
  intro d0 dy h0
  refine foldlM_total _ (fun d => d.length = w * h * 4) ?_ _ d0 h0
  intro d1 dx h1
  exact setPixel_total d1 w h (x + dx) (y + dy) c h1

/-- Endpoint identity of the Bresenham setup: `x2 = x1 + |x2-x1| * sign`. -/
theorem bresEndpoint (x1 x2 : Int) :
    x2 = x1 + |x2 - x1| * (if x1 < x2 then (1 : Int) else -1) := by
  by_cases hlt : x1 < x2
  · rw [if_pos hlt, abs_of_nonneg (by linarith : (0 : Int) ≤ x2 - x1)]; ring
  · rw [if_neg hlt, abs_of_nonpos (by omega : x2 - x1 ≤ (0 : Int))]; ring

/-- Fuel sufficiency and safety of the Bresenham loop: from the state
reached after `a` x-steps and `b` y-steps, with fuel exceeding the
remaining distance `(dx - a) + (dy - b)`, the loop terminates inside the
fuel and preserves the buffer length.  The error-term invariant is
`err = dx - dy - a*dy + b*dx`; the key facts are that the loop never
overshoots (at `a = dx` no further x-step fires, at `b = dy` no further
y-step fires) and that a non-final iteration always steps. -/
theorem bres_total (w h : Nat) (c : Color) (t : Nat) (x1 y1 x2 y2 sx sy dx dy : Int)
    (hdx : dx = |x2 - x1|) (hdy : dy = |y2 - y1|)
    (hsx : sx = if x1 < x2 then 1 else -1) (hsy : sy = if y1 < y2 then 1 else -1) :
    ∀ (fuel : Nat) (a b : Int) (d : List Nat), d.length = w * h * 4 →
      0 ≤ a → a ≤ dx → 0 ≤ b → b ≤ dy → dx - a + (dy - b) < (fuel : Int) →
      ∃ d', bres fuel d w h (x1 + a * sx) (y1 + b * sy) x2 y2 sx sy dx dy
          (dx - dy - a * dy + b * dx) c t = some d' ∧ d'.length = w * h * 4 := by
  have hx2 : x2 = x1 + dx * sx := by rw [hdx, hsx]; exact bresEndpoint x1 x2
  have hy2 : y2 = y1 + dy * sy := by rw [hdy, hsy]; exact bresEndpoint y1 y2
  have hdx0 : 0 ≤ dx := by rw [hdx]; exact abs_nonneg _
  have hdy0 : 0 ≤ dy := by rw [hdy]; exact abs_nonneg _
  have hsxne : sx ≠ 0 := by rw [hsx]; split <;> simp
  have hsyne : sy ≠ 0 := by rw [hsy]; split <;> simp
  intro fuel
  induction fuel with
  | zero =>
    intro a b d _ _ ha1 _ hb1 hm
    exfalso
    simp only [Nat.cast_zero] at hm
    linarith
  | succ fuel ih =>
    intro a b d hd ha0 ha1 hb0 hb1 hm
    simp only [bres]
    obtain ⟨d1, hst, hl1⟩ := setPixelThick_total d w h (x1 + a * sx) (y1 + b * sy) c t hd
    simp only [hst]
    by_cases hbk : x1 + a * sx = x2 ∧ y1 + b * sy = y2
    · rw [if_pos hbk]
      exact ⟨d1, rfl, hl1⟩
    · rw [if_neg hbk]
      -- break is exactly a = dx ∧ b = dy
      have hbkiff : ¬(a = dx ∧ b = dy) := by
        intro ⟨hea, heb⟩
        exact hbk ⟨by rw [hea, hx2], by rw [heb, hy2]⟩
      have lemA : a = dx → ¬(2 * (dx - dy - a * dy + b * dx) > -dy) := by
        intro hea hc
        have hbne : b ≠ dy := fun heb => hbkiff ⟨hea, heb⟩
        have hble : b ≤ dy - 1 := by omega
        have hmul : b * dx ≤ (dy - 1) * dx := mul_le_mul_of_nonneg_right hble hdx0
        rw [hea] at hc
        nlinarith
      have lemB : b = dy → ¬(2 * (dx - dy - a * dy + b * dx) < dx) := by
        intro heb hc
        have hane : a ≠ dx := fun hea => hbkiff ⟨hea, heb⟩
        have hale : a ≤ dx - 1 := by omega
        have hmul : a * dy ≤ (dx - 1) * dy := mul_le_mul_of_nonneg_right hale hdy0
        rw [heb] at hc
        nlinarith
      by_cases hcx : 2 * (dx - dy - a * dy + b * dx) > -dy <;>
        by_cases hcy : 2 * (dx - dy - a * dy + b * dx) < dx
      · -- both step
        rw [if_pos hcx, if_pos hcy, if_pos hcx, if_pos hcy]
        have hane : a ≠ dx := fun hea => lemA hea hcx
        have hbne : b ≠ dy := fun heb => lemB heb hcy
        have e1 : x1 + a * sx + sx = x1 + (a + 1) * sx := by ring
        have e2 : y1 + b * sy + sy = y1 + (b + 1) * sy := by ring
        have e3 : dx - dy - a * dy + b * dx - dy + dx =
            dx - dy - (a + 1) * dy + (b + 1) * dx := by ring
        rw [e1, e2, e3]
        exact ih (a + 1) (b + 1) d1 hl1 (by omega) (by omega) (by omega) (by omega)
          (by push_cast at hm ⊢; omega)
      · -- x-step only
        rw [if_pos hcx, if_neg hcy, if_pos hcx, if_neg hcy]
        have hane : a ≠ dx := fun hea => lemA hea hcx
        have e1 : x1 + a * sx + sx = x1 + (a + 1) * sx := by ring
        have e3 : dx - dy - a * dy + b * dx - dy + 0 =
            dx - dy - (a + 1) * dy + b * dx := by ring
        rw [e1, e3]
        exact ih (a + 1) b d1 hl1 (by omega) (by omega) hb0 hb1
          (by push_cast at hm ⊢; omega)
      · -- y-step only
        rw [if_neg hcx, if_pos hcy, if_neg hcx, if_pos hcy]
        have hbne : b ≠ dy := fun heb => lemB heb hcy
        have e2 : y1 + b * sy + sy = y1 + (b + 1) * sy := by ring
        have e3 : dx - dy - a * dy + b * dx + dx =
            dx - dy - a * dy + (b + 1) * dx := by ring
        rw [e2, e3]
        exact ih a (b + 1) d1 hl1 ha0 ha1 (by omega) (by omega)
          (by push_cast at hm ⊢; omega)
      · -- neither fires: impossible off the endpoint
        exfalso
        have h1 : dx ≤ 2 * (dx - dy - a * dy + b * dx) := by omega
        have h2 : 2 * (dx - dy - a * dy + b * dx) ≤ -dy := by omega
        have hdx0' : dx = 0 := by omega
        have hdy0' : dy = 0 := by omega
        exact hbkiff ⟨by omega, by omega⟩

/-- `_draw_line` succeeds on a well-sized buffer and preserves its
length, for arbitrary (also out-of-bounds) endpoints. -/
theorem drawLine_total (d : List Nat) (w h : Nat) (x1 y1 x2 y2 : Int) (c : Color) (t : Nat)
    (hd : d.length = w * h * 4) :
    ∃ d', drawLine d w h x1 y1 x2 y2 c t = some d' ∧ d'.length = w * h * 4 := by
  unfold drawLine
  have h0 := bres_total w h c t x1 y1 x2 y2 _ _ _ _ rfl rfl rfl rfl
    ((|x2 - x1| + |y2 - y1|).toNat + 1) 0 0 d hd le_rfl (abs_nonneg _) le_rfl (abs_nonneg _)
    (by
      have h1 : (0 : Int) ≤ |x2 - x1| + |y2 - y1| := by positivity
      push_cast
      rw [Int.toNat_of_nonneg h1]
      linarith)
  simpa using h0

/-- `_draw_dashed_line` succeeds and preserves the length. -/
theorem drawDashedLine_total (d : List Nat) (w h : Nat) (x1 y1 x2 y2 : Int) (c : Color)
    (t dash gap : Nat) (hd : d.length = w * h * 4) :
    ∃ d', drawDashedLine d w h x1 y1 x2 y2 c t dash gap = some d' ∧ d'.length = w * h * 4 := by
  unfold drawDashedLine
  refine foldlM_total _ (fun d => d.length = w * h * 4) ?_ _ d hd
  intro d0 i h0
  by_cases hc : i % (dash + gap) < dash
  · simpa [hc] using setPixelThick_total d0 w h _ _ c t h0
  · exact ⟨d0, by simp [hc], h0⟩

/-- `_draw_circle` succeeds and preserves the length. -/
theorem drawCircle_total (d : List Nat) (w h : Nat) (cx cy r : Int) (c : Color) (filled : Bool)
    (hd : d.length = w * h * 4) :
    ∃ d', drawCircle d w h cx cy r c filled = some d' ∧ d'.length = w * h * 4 := by
  unfold drawCircle
  refine foldlM_total _ (fun d => d.length = w * h * 4) ?_ _ d hd
  intro d0 oy h0
  refine foldlM_total _ (fun d => d.length = w * h * 4) ?_ _ d0 h0
  intro d1 ox h1
  rcases filled with _ | _
  · by_cases hc : (r - 2) * (r - 2) ≤ ox * ox + oy * oy ∧ ox * ox + oy * oy ≤ r * r
    · simpa [hc] using setPixel_total d1 w h (cx + ox) (cy + oy) c h1
    · exact ⟨d1, by simp [hc], h1⟩
  · by_cases hc : ox * ox + oy * oy ≤ r * r
    · simpa [hc] using setPixel_total d1 w h (cx + ox) (cy + oy) c h1
    · exact ⟨d1, by simp [hc], h1⟩

/-- `_fill_triangle` succeeds and preserves the length (the bounding box
is clamped to the buffer, but safety holds regardless through the guarded
writes). -/
theorem fillTriangle_total (d : List Nat) (w h : Nat) (x1 y1 x2 y2 x3 y3 : Int) (c : Color)
    (hd : d.length = w * h * 4) :
    ∃ d', fillTriangle d w h x1 y1 x2 y2 x3 y3 c = some d' ∧ d'.length = w * h * 4 := by
  unfold fillTriangle
  refine foldlM_total _ (fun d => d.length = w * h * 4) ?_ _ d hd
  intro d0 py h0
  refine foldlM_total _ (fun d => d.length = w * h * 4) ?_ _ d0 h0
  intro d1 px h1
  by_cases hc : ¬((triEdge px py x1 y1 x2 y2 < 0 ∨ triEdge px py x2 y2 x3 y3 < 0 ∨
      triEdge px py x3 y3 x1 y1 < 0) ∧ (triEdge px py x1 y1 x2 y2 > 0 ∨
      triEdge px py x2 y2 x3 y3 > 0 ∨ triEdge px py x3 y3 x1 y1 > 0))
  · simpa [hc] using setPixel_total d1 w h px py c h1
  · exact ⟨d1, by simp [hc], h1⟩

/-- `_draw_arrowhead` succeeds and preserves the length, for every trig
model. -/
theorem drawArrowhead_total (trig : TrigModel) (d : List Nat) (w h : Nat)
    (x1 y1 x2 y2 : Int) (c : Color) (t : Nat) (len angleDeg : Int)
    (hd : d.length = w * h * 4) :
    ∃ d', drawArrowhead trig d w h x1 y1 x2 y2 c t len angleDeg = some d' ∧
      d'.length = w * h * 4 := by
  obtain ⟨d1, h1, hl1⟩ := drawLine_total d w h x2 y2
    (qtrunc (qsub (qofInt x2) (qmulInt (trig.cosAt (y2 - y1) (x2 - x1) (-angleDeg)) len)))
    (qtrunc (qsub (qofInt y2) (qmulInt (trig.sinAt (y2 - y1) (x2 - x1) (-angleDeg)) len)))
    c t hd
  obtain ⟨d2, h2, hl2⟩ := drawLine_total d1 w h x2 y2
    (qtrunc (qsub (qofInt x2) (qmulInt (trig.cosAt (y2 - y1) (x2 - x1) angleDeg) len)))
    (qtrunc (qsub (qofInt y2) (qmulInt (trig.sinAt (y2 - y1) (x2 - x1) angleDeg) len)))
    c t hl1
  unfold drawArrowhead
  simp only [h1, h2]
  exact fillTriangle_total d2 w h x2 y2
    (qtrunc (qsub (qofInt x2) (qmulInt (trig.cosAt (y2 - y1) (x2 - x1) (-angleDeg)) len)))
    (qtrunc (qsub (qofInt y2) (qmulInt (trig.sinAt (y2 - y1) (x2 - x1) (-angleDeg)) len)))
    (qtrunc (qsub (qofInt x2) (qmulInt (trig.cosAt (y2 - y1) (x2 - x1) angleDeg) len)))
    (qtrunc (qsub (qofInt y2) (qmulInt (trig.sinAt (y2 - y1) (x2 - x1) angleDeg) len)))
    c hl2

/-- `_draw_dashed_arrow` succeeds and preserves the length. -/
theorem drawDashedArrow_total (trig : TrigModel) (d : List Nat) (w h : Nat)
    (x1 y1 x2 y2 : Int) (c : Color) (t dash gap : Nat) (headLen headDeg : Int)
    (hd : d.length = w * h * 4) :
    ∃ d', drawDashedArrow trig d w h x1 y1 x2 y2 c t dash gap headLen headDeg = some d' ∧
      d'.length = w * h * 4 := by
  unfold drawDashedArrow
  obtain ⟨d1, h1, hl1⟩ := drawDashedLine_total d w h x1 y1 x2 y2 c t dash gap hd
  simp only [h1]
  exact drawArrowhead_total trig d1 w h x1 y1 x2 y2 c (max t 3) headLen headDeg hl1

/-- `_draw_glyph` succeeds and preserves the length, for every glyph
table, position and scale. -/
theorem drawGlyph_total (d : List Nat) (w h : Nat) (x y : Int) (glyph : List (List Char))
    (primary outline : Color) (scale : Nat) (hd : d.length = w * h * 4) :
    ∃ d', drawGlyph d w h x y glyph primary outline scale = some d' ∧
      d'.length = w * h * 4 := by
  unfold drawGlyph
  refine foldlM_total _ (fun d => d.length = w * h * 4) ?_ _ d hd
  intro d0 riRow h0
  refine foldlM_total _ (fun d => d.length = w * h * 4) ?_ _ d0 h0
  intro d1 ciCh h1
  by_cases hsp : ciCh.2 = ' '
  · exact ⟨d1, by simp [hsp], h1⟩
  · simp only [hsp, if_false]
    refine foldlM_total _ (fun d => d.length = w * h * 4) ?_ _ d1 h1
    intro d2 sy h2
    refine foldlM_total _ (fun d => d.length = w * h * 4) ?_ _ d2 h2
    intro d3 sx h3
    exact setPixel_total d3 w h _ _ _ h3

/-- `_draw_burst` succeeds and preserves the length, for every trig
model. -/
theorem drawBurst_total (trig : TrigModel) (d : List Nat) (w h : Nat) (x y : Int) (c : Color)
    (rIn rOut : Int) (rays t : Nat) (hd : d.length = w * h * 4) :
    ∃ d', drawBurst trig d w h x y c rIn rOut rays t = some d' ∧ d'.length = w * h * 4 := by
  unfold drawBurst
  refine foldlM_total _ (fun d => d.length = w * h * 4) ?_ _ d hd
  intro d0 i h0
  exact drawLine_total d0 w h _ _ _ _ c t h0

/-- `_movement_trail` succeeds and preserves the length. -/
theorem movementTrail_total (trig : TrigModel) (d : List Nat) (w h : Nat) (x y : Int)
    (px py : Option Int) (hd : d.length = w * h * 4) :
    ∃ d', movementTrail trig d w h x y px py = some d' ∧ d'.length = w * h * 4 := by
  unfold movementTrail
  rcases px with _ | px
  · exact ⟨d, rfl, hd⟩
  · rcases py with _ | py
    · exact ⟨d, rfl, hd⟩
    · by_cases hc : (x - px) * (x - px) + (y - py) * (y - py) > 400
      · simpa [hc] using drawDashedArrow_total trig d w h px py x y ACTION_SECONDARY 2 6 4 12 30 hd
      · exact ⟨d, by simp [hc], hd⟩

/-- `_annotate_left_click` succeeds and preserves the length. -/
theorem annotateLeftClick_total (trig : TrigModel) (d : List Nat) (w h : Nat) (x y : Int)
    (px py : Option Int) (hd : d.length = w * h * 4) :
    ∃ d', annotateLeftClick trig d w h x y px py = some d' ∧ d'.length = w * h * 4 := by
  unfold annotateLeftClick
  obtain ⟨d1, h1, hl1⟩ := movementTrail_total trig d w h x y px py hd
  simp only [h1]
  obtain ⟨d2, h2, hl2⟩ := drawBurst_total trig d1 w h x y ACTION_PRIMARY 14 24 8 2 hl1
  simp only [h2]
  exact drawGlyph_total d2 w h x y GLYPH_CURSOR ACTION_PRIMARY ACTION_OUTLINE 1 hl2

/-- `_annotate_right_click` succeeds and preserves the length. -/
theorem annotateRightClick_total (trig : TrigModel) (d : List Nat) (w h : Nat) (x y : Int)
    (px py : Option Int) (hd : d.length = w * h * 4) :
    ∃ d', annotateRightClick trig d w h x y px py = some d' ∧ d'.length = w * h * 4 := by
  unfold annotateRightClick
  obtain ⟨d1, h1, hl1⟩ := movementTrail_total trig d w h x y px py hd
  simp only [h1]
  obtain ⟨d2, h2, hl2⟩ := drawLine_total d1 w h (x - 20) (y - 20) (x + 20) (y - 20)
    ACTION_PRIMARY 2 hl1
  simp only [h2]
  obtain ⟨d3, h3, hl3⟩ := drawLine_total d2 w h (x + 20) (y - 20) (x + 20) (y + 20)
    ACTION_PRIMARY 2 hl2
  simp only [h3]
  obtain ⟨d4, h4, hl4⟩ := drawLine_total d3 w h (x + 20) (y + 20) (x - 20) (y + 20)
    ACTION_PRIMARY 2 hl3
  simp only [h4]
  obtain ⟨d5, h5, hl5⟩ := drawLine_total d4 w h (x - 20) (y + 20) (x - 20) (y - 20)
    ACTION_PRIMARY 2 hl4
  simp only [h5]
  exact drawGlyph_total d5 w h x y GLYPH_CURSOR_RIGHT ACTION_PRIMARY ACTION_OUTLINE 1 hl5

/-- `_annotate_double_click` succeeds and preserves the length. -/
theorem annotateDoubleClick_total (trig : TrigModel) (d : List Nat) (w h : Nat) (x y : Int)
    (px py : Option Int) (hd : d.length = w * h * 4) :
    ∃ d', annotateDoubleClick trig d w h x y px py = some d' ∧ d'.length = w * h * 4 := by
  unfold annotateDoubleClick
  obtain ⟨d1, h1, hl1⟩ := movementTrail_total trig d w h x y px py hd
  simp only [h1]
  obtain ⟨d2, h2, hl2⟩ := drawCircle_total d1 w h x y 18 ACTION_PRIMARY false hl1
  simp only [h2]
  obtain ⟨d3, h3, hl3⟩ := drawCircle_total d2 w h x y 28 ACTION_PRIMARY false hl2
  simp only [h3]
  obtain ⟨d4, h4, hl4⟩ := drawBurst_total trig d3 w h x y ACTION_PRIMARY 30 38 8 2 hl3
  simp only [h4]
  exact drawGlyph_total d4 w h x y GLYPH_CURSOR ACTION_PRIMARY ACTION_OUTLINE 1 hl4

/-- The drag pre-trail succeeds and preserves the length. -/
theorem dragPre_total (trig : TrigModel) (d : List Nat) (w h : Nat) (x1 y1 : Int)
    (px py : Option Int) (hd : d.length = w * h * 4) :
    ∃ d', dragPre trig d w h x1 y1 px py = some d' ∧ d'.length = w * h * 4 := by
  unfold dragPre
  rcases px with _ | px
  · exact ⟨d, rfl, hd⟩
  · rcases py with _ | py
    · exact ⟨d, rfl, hd⟩
    · by_cases hc : (x1 - px) * (x1 - px) + (y1 - py) * (y1 - py) > 400
      · simpa [hc] using
          drawDashedArrow_total trig d w h px py x1 y1 ACTION_SECONDARY 1 4 4 8 30 hd
      · exact ⟨d, by simp [hc], hd⟩

/-- `_annotate_drag` succeeds and preserves the length. -/
theorem annotateDrag_total (trig : TrigModel) (d : List Nat) (w h : Nat) (x1 y1 x2 y2 : Int)
    (px py : Option Int) (hd : d.length = w * h * 4) :
    ∃ d', annotateDrag trig d w h x1 y1 x2 y2 px py = some d' ∧ d'.length = w * h * 4 := by
  obtain ⟨d1, h1, hl1⟩ := dragPre_total trig d w h x1 y1 px py hd
  unfold annotateDrag
  simp only [h1]
  obtain ⟨d2, h2, hl2⟩ := drawCircle_total d1 w h x1 y1 8 ACTION_PRIMARY true hl1
  simp only [h2]
  obtain ⟨d3, h3, hl3⟩ := drawDashedArrow_total trig d2 w h x1 y1 x2 y2 ACTION_PRIMARY
    3 10 6 18 25 hl2
  simp only [h3]
  exact drawCircle_total d3 w h x2 y2 10 ACTION_PRIMARY false hl3

/-- `_annotate_type` succeeds and preserves the length. -/
theorem annotateType_total (d : List Nat) (w h : Nat) (x y : Int)
    (hd : d.length = w * h * 4) :
    ∃ d', annotateType d w h x y = some d' ∧ d'.length = w * h * 4 := by
  unfold annotateType
  obtain ⟨d1, h1, hl1⟩ := drawGlyph_total d w h (x - ((IBEAM_W * 2) / 2 : Nat))
    (y - ((IBEAM_H * 2) / 2 : Nat)) GLYPH_IBEAM ACTION_PRIMARY ACTION_OUTLINE 2 hd
  simp only [h1]
  exact drawLine_total d1 w h (x - 15) (y + (IBEAM_H : Int) + 4) (x + 15)
    (y + (IBEAM_H : Int) + 4) ACTION_PRIMARY 2 hl1

/-- Variant of `foldlM_total` for an arbitrary state type, with the
step hypothesis restricted to the members of the list. -/
theorem foldlM_totalMem {σ α : Type} (f : σ → α → Option σ) (P : σ → Prop) :
    ∀ (l : List α), (∀ d a, a ∈ l → P d → ∃ d', f d a = some d' ∧ P d') →
      ∀ d, P d → ∃ d', List.foldlM f d l = some d' ∧ P d' := by
  intro l
  induction l with
  | nil => intro _ d hd; exact ⟨d, by simp, hd⟩
  | cons a l ih =>
    intro hf d hd
    obtain ⟨d1, h1, hp1⟩ := hf d a (by simp) hd
    obtain ⟨d2, h2, hp2⟩ := ih (fun d a ha hd => hf d a (by simp [ha]) hd) d1 hp1
    exact ⟨d2, by simp [List.foldlM_cons, h1, h2], hp2⟩

/-- The loop body of `_apply_annotations` is the dispatch of `pactStep`
on the classification of the line: the interpreter is a pure parse
followed by a state-and-buffer update. -/
theorem lineStep_eq_pactStep (trig : TrigModel) (w h : Nat) (st : AnnState)
    (line : List Char) :
    lineStep trig w h st line = pactStep trig w h st (classify line) := by
  simp only [lineStep, classify]
  by_cases h1 : pyFind line '(' = -1
  · simp [h1, pactStep]
  · simp only [if_neg h1]
    cases hev : evalList (pySlice line (pyFind line '(' + 1) (pyRFind line ')')) with
    | none => simp [pactStep]
    | some args =>
      by_cases hn1 : pyStrip (pySlice line 0 (pyFind line '(')) = "left_click".toList
      · simp only [if_pos hn1]
        rcases args with _ | ⟨a0, _ | ⟨a1, rest⟩⟩
        · simp [pactStep]
        · simp [pactStep]
        · cases hv0 : pyIntOf a0 <;> cases hv1 : pyIntOf a1 <;> simp [pactStep, hv0, hv1]
      · simp only [if_neg hn1]
        by_cases hn2 : pyStrip (pySlice line 0 (pyFind line '(')) = "right_click".toList
        · simp only [if_pos hn2]
          rcases args with _ | ⟨a0, _ | ⟨a1, rest⟩⟩
          · simp [pactStep]
          · simp [pactStep]
          · cases hv0 : pyIntOf a0 <;> cases hv1 : pyIntOf a1 <;> simp [pactStep, hv0, hv1]
        · simp only [if_neg hn2]
          by_cases hn3 : pyStrip (pySlice line 0 (pyFind line '(')) =
              "double_left_click".toList
          · simp only [if_pos hn3]
            rcases args with _ | ⟨a0, _ | ⟨a1, rest⟩⟩
            · simp [pactStep]
            · simp [pactStep]
            · cases hv0 : pyIntOf a0 <;> cases hv1 : pyIntOf a1 <;> simp [pactStep, hv0, hv1]
          · simp only [if_neg hn3]
            by_cases hn4 : pyStrip (pySlice line 0 (pyFind line '(')) = "drag".toList
            · simp only [if_pos hn4]
              rcases args with _ | ⟨a0, _ | ⟨a1, _ | ⟨a2, _ | ⟨a3, rest⟩⟩⟩⟩
              · simp [pactStep]
              · simp [pactStep]
              · simp [pactStep]
              · simp [pactStep]
              · cases hv0 : pyIntOf a0 <;> cases hv1 : pyIntOf a1 <;>
                  cases hv2 : pyIntOf a2 <;> cases hv3 : pyIntOf a3 <;>
                  simp [pactStep, hv0, hv1, hv2, hv3]
            · simp only [if_neg hn4]
              by_cases hn5 : pyStrip (pySlice line 0 (pyFind line '(')) = "type".toList
              · rw [if_pos hn5, if_pos hn5]; simp [pactStep]
              · rw [if_neg hn5, if_neg hn5]; simp [pactStep]

/-- A line whose classification is not `crash` never fails and keeps the
buffer well-sized. -/
theorem lineStep_total (trig : TrigModel) (w h : Nat) (st : AnnState) (line : List Char)
    (hc : classify line ≠ PAct.crash) (hd : st.1.length = w * h * 4) :
    ∃ st', lineStep trig w h st line = some st' ∧ st'.1.length = w * h * 4 := by
  rw [lineStep_eq_pactStep]
  cases hcl : classify line with
  | skip => exact ⟨st, rfl, hd⟩
  | crash => exact absurd hcl hc
  | lclick a b =>
    obtain ⟨d', h', hl'⟩ := annotateLeftClick_total trig st.1 w h (norm a w) (norm b h)
      st.2.1 st.2.2 hd
    exact ⟨(d', (some (norm a w), some (norm b h))), by simp [pactStep, h'], hl'⟩
  | rclick a b =>
    obtain ⟨d', h', hl'⟩ := annotateRightClick_total trig st.1 w h (norm a w) (norm b h)
      st.2.1 st.2.2 hd
    exact ⟨(d', (some (norm a w), some (norm b h))), by simp [pactStep, h'], hl'⟩
  | dclick a b =>
    obtain ⟨d', h', hl'⟩ := annotateDoubleClick_total trig st.1 w h (norm a w) (norm b h)
      st.2.1 st.2.2 hd
    exact ⟨(d', (some (norm a w), some (norm b h))), by simp [pactStep, h'], hl'⟩
  | pdrag a b a2 b2 =>
    obtain ⟨d', h', hl'⟩ := annotateDrag_total trig st.1 w h (norm a w) (norm b h)
      (norm a2 w) (norm b2 h) st.2.1 st.2.2 hd
    exact ⟨(d', (some (norm a2 w), some (norm b2 h))), by simp [pactStep, h'], hl'⟩
  | ptype =>
    rcases hpx : st.2.1 with _ | xv
    · exact ⟨st, by simp [pactStep, hpx], hd⟩
    · rcases hpy : st.2.2 with _ | yv
      · exact ⟨st, by simp [pactStep, hpx, hpy], hd⟩
      · obtain ⟨d', h', hl'⟩ := annotateType_total st.1 w h xv yv hd
        exact ⟨(d', st.2), by simp [pactStep, hpx, hpy, h'], hl'⟩

/-- `_apply_annotations` succeeds whenever no line makes an `int()`
conversion raise, and preserves the buffer length: a line that fails to
parse never aborts the processing of subsequent lines. -/
theorem applyAnns_total (trig : TrigModel) (rgba : List Nat) (w h : Nat)
    (acts : List (List Char)) (hcr : ∀ l ∈ acts, classify l ≠ PAct.crash)
    (hd : rgba.length = w * h * 4) :
    ∃ out, applyAnns trig rgba w h acts = some out ∧ out.length = w * h * 4 := by
  obtain ⟨st', h', hp'⟩ := foldlM_totalMem (lineStep trig w h)
    (fun st => st.1.length = w * h * 4) acts
    (fun st l hl hp => lineStep_total trig w h st l (hcr l hl) hp)
    (rgba, (none, none)) hd
  exact ⟨st'.1, by simp [applyAnns, h'], hp'⟩

/-! Helpers for the coordinate-mapping claims. -/

/-- Round-to-nearest of the rational `a / b` (`b > 0`), i.e.
`⌊a/b + 1/2⌋`, as the spec's `round(normalized / 1000 * extent)` reads
(at the counterexample the value is not a tie, so the tie-breaking rule
is irrelevant). -/
def roundNearestDiv (a b : Int) : Int := (2 * a + b) / (2 * b)

/-- The exact-rational idealization `norm` is truncation: on the
nonnegative plane it is the floor of `coord * extent / 1000` (Euclidean
division).  The binary64 code can sit one below this at double-rounding
points; see `normFloat` and the coordinate-conversion claim. -/
theorem norm_eq_floor (c : Int) (e : Nat) (hc : 0 ≤ c) :
    norm c e = (c * e) / 1000 := by
  unfold norm qtrunc qmulInt qdiv
  rw [if_neg (by norm_num)]
  exact Int.tdiv_eq_ediv (mul_nonneg hc (Int.natCast_nonneg e)) (by norm_num)

/-! Helpers for the encoder claims. -/

/-- Big-endian value of a byte string. -/
def beVal (l : List Nat) : Nat := l.foldl (fun a b => a * 256 + b) 0

/-- `be32` really declares its argument (below `2³²`). -/
theorem be32_decode (n : Nat) (h : n < 2 ^ 32) : beVal (be32 n) = n := by
  simp [beVal, be32]
  omega

/-- The encoder output begins with the 8-byte signature. -/
theorem encodePng_take8 (compress : List Nat → List Nat) (rgba : List Nat) (w h : Nat) :
    (encodePng compress rgba w h).take 8 = pngSig := by
  unfold encodePng
  rw [List.append_assoc, List.append_assoc,
    List.take_append_of_le_length (by decide : 8 ≤ pngSig.length)]
  exact List.take_of_length_le (by decide)

/-- Append-accumulating `foldl` is a `flatten` of a `map`. -/
theorem foldl_append_flatten {α β : Type} (f : α → List β) :
    ∀ (l : List α) (init : List β),
      l.foldl (fun acc a => acc ++ f a) init = init ++ (l.map f).flatten := by
  intro l
  induction l with
  | nil => simp
  | cons a l ih => intro init; simp [ih]

/-- The raw stream is one filter-`0`-prefixed scanline per row. -/
theorem pngRaw_eq_flatten (rgba : List Nat) (w h : Nat) :
    pngRaw rgba w h =
      ((List.range h).map (fun y => 0 :: ((rgba.drop (y * (w * 4))).take (w * 4)))).flatten := by
  unfold pngRaw
  rw [foldl_append_flatten]
  simp

/-- Concatenating the `n` scanlines of length `s` recovers the buffer. -/
theorem flatten_scanlines :
    ∀ (n : Nat) (s : Nat) (l : List Nat), l.length = n * s →
      ((List.range n).map (fun y => (l.drop (y * s)).take s)).flatten = l := by
  intro n
  induction n with
  | zero =>
    intro s l h
    simp only [Nat.zero_mul] at h
    simp [List.length_eq_zero.1 h]
  | succ n ih =>
    intro s l h
    rw [List.range_succ_eq_map]
    simp only [List.map_cons, List.map_map, List.flatten_cons, Nat.zero_mul, List.drop_zero]
    have htail : (List.range n).map ((fun y => (l.drop (y * s)).take s) ∘ Nat.succ) =
        (List.range n).map (fun y => ((l.drop s).drop (y * s)).take s) := by
      apply List.map_congr_left
      intro y _
      simp only [Function.comp]
      rw [List.drop_drop]
      congr 2
      simp [Nat.succ_eq_add_one]
      ring
    have hdlen : (l.drop s).length = n * s := by
      rw [List.length_drop, h]
      have : (n + 1) * s = n * s + s := by ring
      omega
    rw [htail, ih s (l.drop s) hdlen]
    exact List.take_append_drop s l

/-! Helpers for the line-primitive claim: `_draw_line` as a stamp along
the Bresenham points, and the shape of the stamp. -/

/-- The pixel offsets actually stamped by `_set_pixel_thick` around
`(x, y)`: the square `[-t/2, t/2]²`. -/
def squarePts (x y : Int) (t : Nat) : List (Int × Int) :=
  let half : Int := (t : Int) / 2
  (intRange (-half) (half + 1)).flatMap
    (fun dy => (intRange (-half) (half + 1)).map (fun dx => (x + dx, y + dy)))

/-- `foldlM` over a `flatMap` is the nested fold. -/
theorem foldlM_flatMap {σ α β : Type} (f : σ → β → Option σ) (g : α → List β) :
    ∀ (l : List α) (d : σ),
      List.foldlM f d (l.flatMap g) =
        List.foldlM (fun d a => List.foldlM f d (g a)) d l := by
  intro l
  induction l with
  | nil => intro d; simp
  | cons a l ih =>
    intro d
    rw [List.flatMap_cons, List.foldlM_append, List.foldlM_cons]
    cases hx : List.foldlM f d (g a) <;> simp [hx, ih]

/-- `_set_pixel_thick` is exactly the guarded write of every pixel of its
square stamp. -/
theorem setPixelThick_eq_fold (d : List Nat) (w h : Nat) (x y : Int) (c : Color) (t : Nat) :
    setPixelThick d w h x y c t =
      List.foldlM (fun b p => setPixel b w h p.1 p.2 c) d (squarePts x y t) := by
  unfold setPixelThick squarePts
  rw [foldlM_flatMap]
  simp only [List.foldlM_map]

/-- Membership in the interval list `intRange`. -/
theorem mem_intRange (v a b : Int) : v ∈ intRange a b ↔ a ≤ v ∧ v < b := by
  simp only [intRange, List.mem_map, List.mem_range]
  constructor
  · rintro ⟨i, hi, rfl⟩
    omega
  · rintro ⟨h1, h2⟩
    refine ⟨(v - a).toNat, by omega, by omega⟩

/-- The stamp of `_set_pixel_thick` is the square of half-side `t / 2`
centred on the stamped point. -/
theorem mem_squarePts (p : Int × Int) (x y : Int) (t : Nat) :
    p ∈ squarePts x y t ↔
      x - (t : Int) / 2 ≤ p.1 ∧ p.1 ≤ x + (t : Int) / 2 ∧
        y - (t : Int) / 2 ≤ p.2 ∧ p.2 ≤ y + (t : Int) / 2 := by
  simp only [squarePts, List.mem_flatMap, List.mem_map]
  constructor
  · rintro ⟨dy, hdy, dx, hdx, rfl⟩
    rw [mem_intRange] at hdy hdx
    simp only []
    omega
  · rintro ⟨h1, h2, h3, h4⟩
    refine ⟨p.2 - y, ?_, p.1 - x, ?_, ?_⟩
    · rw [mem_intRange]; omega
    · rw [mem_intRange]; omega
    · simp

/-- Sum of a constant map. -/
theorem sum_map_const {α : Type} (l : List α) (k : Nat) :
    (l.map (fun _ => k)).sum = l.length * k := by
  induction l with
  | nil => simp
  | cons a l ih => simp [ih]; ring

/-- Size of the stamp: `(2*(t/2)+1)²` pixels. -/
theorem squarePts_length (x y : Int) (t : Nat) :
    (squarePts x y t).length = (2 * (t / 2) + 1) * (2 * (t / 2) + 1) := by
  have hlen : (intRange (-((t : Int) / 2)) ((t : Int) / 2 + 1)).length = 2 * (t / 2) + 1 := by
    simp only [intRange, List.length_map, List.length_range]
    have he : ((t : Int) / 2) = ((t / 2 : Nat) : Int) := (Int.natCast_div t 2).symm
    rw [he]
    omega
  simp only [squarePts, List.length_flatMap]
  rw [show (List.length ∘ fun dy =>
        (intRange (-((t : Int) / 2)) ((t : Int) / 2 + 1)).map (fun dx => (x + dx, y + dy))) =
      fun _ : Int => 2 * (t / 2) + 1 from funext fun dy => by
        simp [Function.comp, List.length_map, hlen]]
  rw [sum_map_const, hlen]

/-- Whenever the Bresenham loop completes, it computes exactly the
left-to-right stamping of its stepped points. -/
theorem bres_eq_fold (w h : Nat) (c : Color) (t : Nat) :
    ∀ (fuel : Nat) (x y x2 y2 sx sy dx dy err : Int) (d r : List Nat),
      bres fuel d w h x y x2 y2 sx sy dx dy err c t = some r →
      List.foldlM (fun b p => setPixelThick b w h p.1 p.2 c t) d
        (bresPts fuel x y x2 y2 sx sy dx dy err) = some r := by
  intro fuel
  induction fuel with
  | zero =>
    intro x y x2 y2 sx sy dx dy err d r hb
    simp [bres] at hb
  | succ fuel ih =>
    intro x y x2 y2 sx sy dx dy err d r hb
    simp only [bres] at hb
    cases hst : setPixelThick d w h x y c t with
    | none => rw [hst] at hb; simp at hb
    | some d1 =>
      rw [hst] at hb
      simp only [] at hb
      simp only [bresPts]
      by_cases hbk : x = x2 ∧ y = y2
      · rw [if_pos hbk] at hb ⊢
        simp only [Option.some.injEq] at hb
        simp [List.foldlM_cons, hst, hb]
      · rw [if_neg hbk] at hb ⊢
        rw [List.foldlM_cons]
        simp only [hst, Option.some_bind]
        exact ih _ _ _ _ _ _ _ _ _ d1 r hb

/-- `_draw_line` (whenever it completes, which `drawLine_total` shows it
always does on a well-sized buffer) equals the stamping fold over its
Bresenham points. -/
theorem drawLine_eq_fold (d : List Nat) (w h : Nat) (x1 y1 x2 y2 : Int) (c : Color)
    (t : Nat) (r : List Nat) (hr : drawLine d w h x1 y1 x2 y2 c t = some r) :
    List.foldlM (fun b p => setPixelThick b w h p.1 p.2 c t) d (linePts x1 y1 x2 y2) =
      some r := by
  unfold drawLine at hr
  unfold linePts
  exact bres_eq_fold w h c t _ _ _ _ _ _ _ _ _ _ d r hr

/-! Helpers for the normalizer claim. -/

/-- Dropping four heads of a list under `getD`. -/
theorem getD_cons4 (p q r s : Nat) (l : List Nat) (n : Nat) :
    (p :: q :: r :: s :: l).getD (n + 4) 0 = l.getD n 0 := by
  simp [List.getD_cons_succ, show n + 4 = (((n + 1) + 1) + 1) + 1 from by omega]

/-- `_bgra_to_rgba` on a buffer of whole pixels: length preserved, fixed
channel permutation, alpha forced to `255`. -/
theorem bgraToRgba_spec :
    ∀ (l : List Nat), l.length % 4 = 0 →
      (bgraToRgba l).length = l.length ∧
      ∀ k, 4 * k + 3 < l.length →
        (bgraToRgba l).getD (4 * k) 0 = l.getD (4 * k + 2) 0 ∧
        (bgraToRgba l).getD (4 * k + 1) 0 = l.getD (4 * k + 1) 0 ∧
        (bgraToRgba l).getD (4 * k + 2) 0 = l.getD (4 * k) 0 ∧
        (bgraToRgba l).getD (4 * k + 3) 0 = 255
  | [] => fun _ => ⟨rfl, fun _ hk => absurd hk (by simp)⟩
  | [_] => fun hlen => absurd hlen (by simp)
  | [_, _] => fun hlen => absurd hlen (by simp)
  | [_, _, _] => fun hlen => absurd hlen (by simp)
  | b :: g :: r :: a :: rest => fun hlen => by
    have hrest : rest.length % 4 = 0 := by simp at hlen; omega
    obtain ⟨ihlen, ihspec⟩ := bgraToRgba_spec rest hrest
    refine ⟨by simp [bgraToRgba, ihlen], ?_⟩
    intro k hk
    match k with
    | 0 => simp [bgraToRgba]
    | Nat.succ k =>
      simp only [Nat.succ_eq_add_one] at hk ⊢
      have hk' : 4 * k + 3 < rest.length := by simp at hk; omega
      obtain ⟨e1, e2, e3, e4⟩ := ihspec k hk'
      have hb : bgraToRgba (b :: g :: r :: a :: rest) =
          r :: g :: b :: 255 :: bgraToRgba rest := rfl
      refine ⟨?_, ?_, ?_, ?_⟩
      · rw [hb, show 4 * (k + 1) = 4 * k + 4 from by ring, getD_cons4,
          show 4 * k + 4 + 2 = (4 * k + 2) + 4 from by ring, getD_cons4]
        exact e1
      · rw [hb, show 4 * (k + 1) + 1 = (4 * k + 1) + 4 from by ring, getD_cons4,
          getD_cons4]
        exact e2
      · rw [hb, show 4 * (k + 1) + 2 = (4 * k + 2) + 4 from by ring, getD_cons4,
          show 4 * (k + 1) = 4 * k + 4 from by ring, getD_cons4]
        exact e3
      · rw [hb, show 4 * (k + 1) + 3 = (4 * k + 3) + 4 from by ring, getD_cons4]
        exact e4

/-! Helpers for the glyph-alpha claim. -/

/-- Reading back a just-set entry. -/
theorem getD_set_self (l : List Nat) (n : Nat) (v : Nat) (h : n < l.length) :
    (l.set n v).getD n 0 = v := by
  rw [List.getD_eq_getElem?_getD, List.getElem?_set_self', List.getElem?_eq_getElem h]
  rfl

/-- An in-bounds guarded pixel write stores the color's alpha byte —
`200`, not `255`, for the outline color — at the pixel's alpha index. -/
theorem setPixel_alpha (d : List Nat) (w h : Nat) (x y : Int) (c : Color)
    (hd : d.length = w * h * 4) (hx0 : 0 ≤ x) (hx : x < (w : Int)) (hy0 : 0 ≤ y)
    (hy : y < (h : Int)) :
    ∃ d', setPixel d w h x y c = some d' ∧
      d'.getD ((y * w + x) * 4 + 3).toNat 0 = c.a := by
  obtain ⟨hi0, hi3⟩ := pixIdx_bounds hx0 hx hy0 hy
  have hlen : ((d.length : Nat) : Int) = ((w * h * 4 : Nat) : Int) := by rw [hd]
  have b0 := byteSet_some d ((y * w + x) * 4) c.r hi0 (by rw [hlen]; linarith)
  have b1 := byteSet_some (d.set ((y * w + x) * 4).toNat c.r) ((y * w + x) * 4 + 1) c.g
    (by linarith) (by simp [List.length_set]; rw [hlen]; linarith)
  have b2 := byteSet_some ((d.set ((y * w + x) * 4).toNat c.r).set
      ((y * w + x) * 4 + 1).toNat c.g) ((y * w + x) * 4 + 2) c.b
    (by linarith) (by simp [List.length_set]; rw [hlen]; linarith)
  have b3 := byteSet_some (((d.set ((y * w + x) * 4).toNat c.r).set
      ((y * w + x) * 4 + 1).toNat c.g).set ((y * w + x) * 4 + 2).toNat c.b)
    ((y * w + x) * 4 + 3) c.a (by linarith) (by simp [List.length_set]; rw [hlen]; linarith)
  refine ⟨(((d.set ((y * w + x) * 4).toNat c.r).set ((y * w + x) * 4 + 1).toNat c.g).set
      ((y * w + x) * 4 + 2).toNat c.b).set ((y * w + x) * 4 + 3).toNat c.a, ?_, ?_⟩
  · simp only [setPixel, if_pos (⟨hx0, hx, hy0, hy⟩ :
      0 ≤ x ∧ x < (w : Int) ∧ 0 ≤ y ∧ y < (h : Int)), b0, b1, b2, b3]
  · apply getD_set_self
    simp only [List.length_set]
    rw [hd]
    have : ((y * w + x) * 4 + 3).toNat < ((w * h * 4 : Nat)) := by
      omega
    exact this

/-! Concrete buffers for witnesses and counterexamples. -/

/-- An all-`255` 6×6 RGBA buffer (as produced by normalisation of an
all-white capture: every alpha byte is `255`). -/
def buf6x6 : List Nat := List.replicate 144 255

/-- An all-`255` 8×6 RGBA buffer. -/
def buf8x6 : List Nat := List.replicate 192 255

/-- C1: for every input line whose recognized-action arguments evaluate
to integers, action parsing never raises and never aborts processing of
subsequent lines; a line with no `(` , unparsable argument text, an
unrecognized name, or too few arguments is skipped;
`left_click(500,500)` yields a primary click at normalized `(500,500)`;
`left_click(500)` and `foo(1,2)` are skipped.  (Amended from the original
claim: a line with an opening parenthesis but no closing one is *not*
`Unrecognized` — see `C1_counterexample`.) -/
theorem C1_parser_totality :
    (∀ (trig : TrigModel) (w h : Nat) (buf : List Nat) (px py : Option Int)
        (line : List Char), classify line ≠ PAct.crash → buf.length = w * h * 4 →
        (lineStep trig w h (buf, (px, py)) line).isSome) ∧
    (∀ (trig : TrigModel) (buf : List Nat) (w h : Nat) (acts : List (List Char)),
        (∀ l ∈ acts, classify l ≠ PAct.crash) → buf.length = w * h * 4 →
        (applyAnns trig buf w h acts).isSome) ∧
    (∀ (trig : TrigModel) (w h : Nat) (st : AnnState),
        lineStep trig w h st ("left_click(500,500)").toList =
          pactStep trig w h st (PAct.lclick 500 500)) ∧
    (∀ (trig : TrigModel) (w h : Nat) (st : AnnState),
        lineStep trig w h st ("left_click(500)").toList = some st) ∧
    (∀ (trig : TrigModel) (w h : Nat) (st : AnnState),
        lineStep trig w h st ("foo(1,2)").toList = some st) := by
  refine ⟨?_, ?_, ?_, ?_, ?_⟩
  · intro trig w h buf px py line hc hd
    obtain ⟨st', h', _⟩ := lineStep_total trig w h (buf, (px, py)) line hc hd
    simp [h']
  · intro trig buf w h acts hc hd
    obtain ⟨out, h', _⟩ := applyAnns_total trig buf w h acts hc hd
    simp [h']
  · intro trig w h st
    rw [lineStep_eq_pactStep]
    have hc : classify (("left_click(500,500)").toList) = PAct.lclick 500 500 := by decide
    rw [hc]
  · intro trig w h st
    rw [lineStep_eq_pactStep]
    have hc : classify (("left_click(500)").toList) = PAct.skip := by decide
    rw [hc]
    rfl
  · intro trig w h st
    rw [lineStep_eq_pactStep]
    have hc : classify (("foo(1,2)").toList) = PAct.skip := by decide
    rw [hc]
    rfl

/-- Witness for C1 at concrete inputs: a well-formed sequence is fully
processed, and the skip examples hold on a concrete state. -/
theorem C1_parser_totality_witness :
    (applyAnns zeroTrig buf6x6 6 6
        [("left_click(500,500)").toList, ("foo(1,2)").toList]).isSome ∧
    lineStep zeroTrig 6 6 (buf6x6, (none, none)) ("left_click(500)").toList =
      some (buf6x6, (none, none)) :=
  ⟨C1_parser_totality.2.1 zeroTrig buf6x6 6 6
      [("left_click(500,500)").toList, ("foo(1,2)").toList]
      (by decide) (by decide),
    C1_parser_totality.2.2.2.1 zeroTrig 6 6 (buf6x6, (none, none))⟩

/-- Counterexample to C1 as frozen: a line with unbalanced parentheses
(`"left_click(500,500"`, no closing parenthesis) is *not* skipped — the
slice `line[11:-1]` drops the final character and the line acts as a
click (the buffer changes), and a line whose argument is a quoted string
(`left_click("a","b")`) makes the uncaught `int()` conversion raise,
aborting the pass (modelled as `none`). -/
theorem C1_counterexample :
    applyAnns zeroTrig buf6x6 6 6 [("left_click(500,500").toList] ≠ some buf6x6 ∧
    applyAnns zeroTrig buf6x6 6 6 [("left_click(\"a\",\"b\")").toList] = none := by
  constructor
  · decide
  · decide

/-- C2 (amended): `_norm` truncates toward zero the binary64 product
`fl(fl(coord/1000) * extent)` (Python `int()`).  It is not
round-to-nearest — at `(700, 1)` the code yields `0` while
round-to-nearest yields `1` — and, by double rounding, not always the
exact `⌊coord*extent/1000⌋` either: at `(290, 100)` the code yields
`28` while the exact truncation (`norm`, the idealized reading) is
`29`.  When the double computation is exact it coincides with the exact
truncation, as in the spec's own example: `(500, 500)` on a `736×464`
buffer maps to `(368, 232)`. -/
theorem C2_norm_double_trunc :
    normFloat 500 736 = 368 ∧ normFloat 500 464 = 232 ∧
    normFloat 700 1 = 0 ∧ roundNearestDiv (700 * 1) 1000 = 1 ∧
    normFloat 290 100 = 28 ∧ norm 290 100 = 29 ∧ (290 * 100 : Int) / 1000 = 29 := by
  refine ⟨by decide, by decide, by decide, by decide, by decide, by decide, by decide⟩

/-- Counterexample to C2 as frozen: at normalized coordinate `700` and
extent `1`, the code produces `int(0.7) = 0` under exact binary64
semantics, while round-to-nearest of `700/1000*1` is `1` (not a tie, so
the tie-breaking rule is moot). -/
theorem C2_counterexample :
    normFloat 700 1 = 0 ∧ roundNearestDiv (700 * 1) 1000 = 1 ∧ (0 : Int) ≠ 1 := by
  refine ⟨by decide, by decide, by decide⟩

/-- C3: no drawing primitive ever writes outside the pixel buffer, never
wraps a negative coordinate to the end of the buffer, never raises
(`some` in the instrumented semantics, which returns `none` on any
out-of-range or negative byte index), and preserves
`len(data) = width*height*4` — for arbitrary, also out-of-bounds,
coordinates and every trig model. -/
theorem C3_bounds_safety :
    (∀ (d : List Nat) (w h : Nat) (x y : Int) (c : Color),
        ¬(0 ≤ x ∧ x < (w : Int) ∧ 0 ≤ y ∧ y < (h : Int)) → setPixel d w h x y c = some d) ∧
    (∀ (d : List Nat) (w h : Nat) (x1 y1 x2 y2 : Int) (c : Color) (t : Nat),
        d.length = w * h * 4 →
        ∃ d', drawLine d w h x1 y1 x2 y2 c t = some d' ∧ d'.length = w * h * 4) ∧
    (∀ (d : List Nat) (w h : Nat) (x1 y1 x2 y2 : Int) (c : Color) (t dash gap : Nat),
        d.length = w * h * 4 →
        ∃ d', drawDashedLine d w h x1 y1 x2 y2 c t dash gap = some d' ∧
          d'.length = w * h * 4) ∧
    (∀ (d : List Nat) (w h : Nat) (cx cy r : Int) (c : Color) (filled : Bool),
        d.length = w * h * 4 →
        ∃ d', drawCircle d w h cx cy r c filled = some d' ∧ d'.length = w * h * 4) ∧
    (∀ (d : List Nat) (w h : Nat) (x1 y1 x2 y2 x3 y3 : Int) (c : Color),
        d.length = w * h * 4 →
        ∃ d', fillTriangle d w h x1 y1 x2 y2 x3 y3 c = some d' ∧
          d'.length = w * h * 4) ∧
    (∀ (trig : TrigModel) (d : List Nat) (w h : Nat) (x1 y1 x2 y2 : Int) (c : Color)
        (t : Nat) (len angleDeg : Int), d.length = w * h * 4 →
        ∃ d', drawArrowhead trig d w h x1 y1 x2 y2 c t len angleDeg = some d' ∧
          d'.length = w * h * 4) ∧
    (∀ (d : List Nat) (w h : Nat) (x y : Int) (glyph : List (List Char))
        (primary outline : Color) (scale : Nat), d.length = w * h * 4 →
        ∃ d', drawGlyph d w h x y glyph primary outline scale = some d' ∧
          d'.length = w * h * 4) ∧
    (∀ (trig : TrigModel) (d : List Nat) (w h : Nat) (x y : Int) (c : Color)
        (rIn rOut : Int) (rays t : Nat), d.length = w * h * 4 →
        ∃ d', drawBurst trig d w h x y c rIn rOut rays t = some d' ∧
          d'.length = w * h * 4) := by
  refine ⟨?_, ?_, ?_, ?_, ?_, ?_, ?_, ?_⟩
  · intro d w h x y c hg
    simp [setPixel, hg]
  · intro d w h x1 y1 x2 y2 c t hd
    exact drawLine_total d w h x1 y1 x2 y2 c t hd
  · intro d w h x1 y1 x2 y2 c t dash gap hd
    exact drawDashedLine_total d w h x1 y1 x2 y2 c t dash gap hd
  · intro d w h cx cy r c filled hd
    exact drawCircle_total d w h cx cy r c filled hd
  · intro d w h x1 y1 x2 y2 x3 y3 c hd
    exact fillTriangle_total d w h x1 y1 x2 y2 x3 y3 c hd
  · intro trig d w h x1 y1 x2 y2 c t len angleDeg hd
    exact drawArrowhead_total trig d w h x1 y1 x2 y2 c t len angleDeg hd
  · intro d w h x y glyph primary outline scale hd
    exact drawGlyph_total d w h x y glyph primary outline scale hd
  · intro trig d w h x y c rIn rOut rays t hd
    exact drawBurst_total trig d w h x y c rIn rOut rays t hd

/-- Witness for C3 at concrete out-of-bounds inputs. -/
theorem C3_bounds_safety_witness :
    setPixel buf6x6 6 6 (-1) 2 ACTION_PRIMARY = some buf6x6 ∧
    (∃ d', drawLine buf6x6 6 6 (-50) (-3) 99 99 ACTION_PRIMARY 3 = some d' ∧
      d'.length = 6 * 6 * 4) :=
  ⟨C3_bounds_safety.1 buf6x6 6 6 (-1) 2 ACTION_PRIMARY (by decide),
    C3_bounds_safety.2.1 buf6x6 6 6 (-50) (-3) 99 99 ACTION_PRIMARY 3 (by decide)⟩

/-- C4: `_apply_annotations` is a left-to-right fold over a single
prior-point state: each line acts as `pactStep` on its classification;
after a click the prior point becomes the click's point; after a drag the
prior point becomes the drag's *end* point while the pre-trail aims at
the drag's *start* point; `type` reads the prior point without changing
it and is a no-op when no prior point exists. -/
theorem C4_fold_semantics :
    (∀ (trig : TrigModel) (w h : Nat) (st : AnnState) (line : List Char),
        lineStep trig w h st line = pactStep trig w h st (classify line)) ∧
    (∀ (trig : TrigModel) (w h : Nat) (buf : List Nat) (px py : Option Int)
        (a b : Int) (line : List Char), classify line = PAct.lclick a b →
        lineStep trig w h (buf, (px, py)) line =
          (annotateLeftClick trig buf w h (norm a w) (norm b h) px py).map
            (fun b2 => (b2, (some (norm a w), some (norm b h))))) ∧
    (∀ (trig : TrigModel) (w h : Nat) (buf : List Nat) (px py : Option Int)
        (a b a2 b2 : Int) (line : List Char), classify line = PAct.pdrag a b a2 b2 →
        lineStep trig w h (buf, (px, py)) line =
          (annotateDrag trig buf w h (norm a w) (norm b h) (norm a2 w) (norm b2 h)
              px py).map
            (fun bf => (bf, (some (norm a2 w), some (norm b2 h))))) ∧
    (∀ (trig : TrigModel) (d : List Nat) (w h : Nat) (x1 y1 : Int) (px py : Int),
        dragPre trig d w h x1 y1 (some px) (some py) =
          if (x1 - px) * (x1 - px) + (y1 - py) * (y1 - py) > 400 then
            drawDashedArrow trig d w h px py x1 y1 ACTION_SECONDARY 1 4 4 8 30
          else some d) ∧
    (∀ (trig : TrigModel) (w h : Nat) (buf : List Nat) (xp yp : Int)
        (line : List Char), classify line = PAct.ptype →
        lineStep trig w h (buf, (some xp, some yp)) line =
          (annotateType buf w h xp yp).map (fun b2 => (b2, (some xp, some yp)))) ∧
    (∀ (trig : TrigModel) (w h : Nat) (buf : List Nat) (py : Option Int)
        (line : List Char), classify line = PAct.ptype →
        lineStep trig w h (buf, (none, py)) line = some (buf, (none, py))) := by
  refine ⟨lineStep_eq_pactStep, ?_, ?_, ?_, ?_, ?_⟩
  · intro trig w h buf px py a b line hcl
    rw [lineStep_eq_pactStep, hcl]
    cases hA : annotateLeftClick trig buf w h (norm a w) (norm b h) px py <;>
      simp [pactStep, hA]
  · intro trig w h buf px py a b a2 b2 line hcl
    rw [lineStep_eq_pactStep, hcl]
    cases hA : annotateDrag trig buf w h (norm a w) (norm b h) (norm a2 w) (norm b2 h)
        px py <;> simp [pactStep, hA]
  · intro trig d w h x1 y1 px py
    rfl
  · intro trig w h buf xp yp line hcl
    rw [lineStep_eq_pactStep, hcl]
    cases hA : annotateType buf w h xp yp <;> simp [pactStep, hA]
  · intro trig w h buf py line hcl
    rw [lineStep_eq_pactStep, hcl]
    rfl

/-- Witness for C4 at concrete inputs: a drag updates the prior point to
its end point, and `type` with no prior point is a no-op. -/
theorem C4_fold_semantics_witness :
    lineStep zeroTrig 6 6 (buf6x6, (none, none)) ("drag(0,0,999,999)").toList =
      (annotateDrag zeroTrig buf6x6 6 6 (norm 0 6) (norm 0 6) (norm 999 6) (norm 999 6)
          none none).map
        (fun bf => (bf, (some (norm 999 6), some (norm 999 6)))) ∧
    lineStep zeroTrig 6 6 (buf6x6, (none, none)) ("type(1)").toList =
      some (buf6x6, (none, none)) :=
  ⟨C4_fold_semantics.2.2.1 zeroTrig 6 6 buf6x6 none none 0 0 999 999
      ("drag(0,0,999,999)").toList (by decide),
    C4_fold_semantics.2.2.2.2.2 zeroTrig 6 6 buf6x6 none ("type(1)").toList (by decide)⟩

/-- C5 (amended): in `_capture_bgra` and `_downsample_bgra` every
acquired GDI handle is released on the non-raising exit path (a failing
`BitBlt`/`StretchBlt` merely returns an ignored error code and still
reaches the releases); but on the exit path where `CreateDIBSection`
fails — the buffer read raises — the function has no `try/finally` and
the acquired device contexts and bitmaps are *not* released. -/
theorem C5_handle_release :
    handlesBalanced (captureTrace true).1 = true ∧
    handlesBalanced (downsampleTrace true).1 = true ∧
    ((captureTrace false).2 = false ∧ handlesBalanced (captureTrace false).1 = false) ∧
    ((downsampleTrace false).2 = false ∧
      handlesBalanced (downsampleTrace false).1 = false) := by
  refine ⟨by decide, by decide, ⟨by decide, by decide⟩, ⟨by decide, by decide⟩⟩

/-- Counterexample to C5 as frozen: on the invocation where the capture
bitmap creation fails (so the buffer read raises and the invocation ends
abnormally), the acquired screen DC and memory DC are never released —
the trace is unbalanced, a handle leak. -/
theorem C5_counterexample :
    (captureTrace false).2 = false ∧ handlesBalanced (captureTrace false).1 = false := by
  exact ⟨by decide, by decide⟩

/-- C6: for every compressor, pixel buffer and valid positive dimensions
(below `2³²`), the encoder output begins with the fixed 8-byte PNG
signature, then exactly one header chunk declaring the buffer's width,
height, 8-bit depth and RGBA color mode (type 6), then one
compressed-data chunk whose uncompressed payload is the buffer
scanline-by-scanline with each scanline prefixed by a filter byte of
zero, then a trailing empty terminator chunk last; every chunk is framed
as a 4-byte big-endian body length, the 4-byte tag, the body, and the
CRC32 of tag+body. -/
theorem C6_encoder_structure (compress : List Nat → List Nat) (rgba : List Nat)
    (w h : Nat) (hw : 0 < w) (hh : 0 < h) (hlen : rgba.length = w * h * 4)
    (hw32 : w < 2 ^ 32) (hh32 : h < 2 ^ 32) :
    (encodePng compress rgba w h).take 8 = pngSig ∧
    encodePng compress rgba w h =
      pngSig ++ chunk (tagBytes "IHDR") (ihdrBody w h) ++
        chunk (tagBytes "IDAT") (compress (pngRaw rgba w h)) ++
        chunk (tagBytes "IEND") [] ∧
    (∀ tag body : List Nat,
        chunk tag body = be32 body.length ++ tag ++ body ++ be32 (crc32 (tag ++ body))) ∧
    ihdrBody w h = be32 w ++ be32 h ++ [8, 6, 0, 0, 0] ∧
    beVal ((ihdrBody w h).take 4) = w ∧
    beVal (((ihdrBody w h).drop 4).take 4) = h ∧
    pngRaw rgba w h =
      ((List.range h).map
        (fun y => 0 :: ((rgba.drop (y * (w * 4))).take (w * 4)))).flatten ∧
    ((List.range h).map (fun y => (rgba.drop (y * (w * 4))).take (w * 4))).flatten =
      rgba := by
  refine ⟨encodePng_take8 compress rgba w h, rfl, fun tag body => rfl, rfl, ?_, ?_, ?_, ?_⟩
  · simp only [ihdrBody, be32, beVal, List.cons_append, List.nil_append, List.take,
      List.foldl]
    omega
  · simp only [ihdrBody, be32, beVal, List.cons_append, List.nil_append, List.drop,
      List.take, List.foldl]
    omega
  · exact pngRaw_eq_flatten rgba w h
  · exact flatten_scanlines h (w * 4) rgba (by rw [hlen]; ring)

/-- Witness for C6 at a concrete input (identity compressor, one 1×1
pixel). -/
theorem C6_encoder_structure_witness :
    (encodePng (fun l => l) [9, 8, 7, 6] 1 1).take 8 = pngSig ∧
    beVal ((ihdrBody 1 1).take 4) = 1 ∧
    pngRaw [9, 8, 7, 6] 1 1 =
      ((List.range 1).map
        (fun y => 0 :: (([9, 8, 7, 6].drop (y * (1 * 4))).take (1 * 4)))).flatten :=
  ⟨(C6_encoder_structure (fun l => l) [9, 8, 7, 6] 1 1 (by decide) (by decide) (by decide)
      (by decide) (by decide)).1,
    (C6_encoder_structure (fun l => l) [9, 8, 7, 6] 1 1 (by decide) (by decide) (by decide)
      (by decide) (by decide)).2.2.2.2.1,
    (C6_encoder_structure (fun l => l) [9, 8, 7, 6] 1 1 (by decide) (by decide) (by decide)
      (by decide) (by decide)).2.2.2.2.2.2.1⟩

/-- C7: a point-bearing action with a prior point at squared pixel
distance at most `400` (Euclidean distance ≤ 20) draws no movement
trail; at squared distance above `400` it draws exactly one
secondary-color dashed arrow from the prior point to the current point,
before the action's own marks (the annotators are the trail draw bound
first, then the marks); the drag pre-trail behaves the same way toward
the drag start with its thinner parameters. -/
theorem C7_trail_suppression :
    (∀ (trig : TrigModel) (d : List Nat) (w h : Nat) (x y px py : Int),
        (x - px) * (x - px) + (y - py) * (y - py) ≤ 400 →
        movementTrail trig d w h x y (some px) (some py) = some d) ∧
    (∀ (trig : TrigModel) (d : List Nat) (w h : Nat) (x y px py : Int),
        (x - px) * (x - px) + (y - py) * (y - py) > 400 →
        movementTrail trig d w h x y (some px) (some py) =
          drawDashedArrow trig d w h px py x y ACTION_SECONDARY 2 6 4 12 30) ∧
    (∀ (trig : TrigModel) (d : List Nat) (w h : Nat) (x y : Int) (px py : Option Int),
        annotateLeftClick trig d w h x y px py =
          match movementTrail trig d w h x y px py with
          | none => none
          | some d1 =>
            match drawBurst trig d1 w h x y ACTION_PRIMARY 14 24 8 2 with
            | none => none
            | some d2 => drawGlyph d2 w h x y GLYPH_CURSOR ACTION_PRIMARY ACTION_OUTLINE 1) ∧
    (∀ (trig : TrigModel) (d : List Nat) (w h : Nat) (x y : Int) (px py : Option Int),
        annotateDoubleClick trig d w h x y px py =
          match movementTrail trig d w h x y px py with
          | none => none
          | some d1 =>
            match drawCircle d1 w h x y 18 ACTION_PRIMARY false with
            | none => none
            | some d2 =>
              match drawCircle d2 w h x y 28 ACTION_PRIMARY false with
              | none => none
              | some d3 =>
                match drawBurst trig d3 w h x y ACTION_PRIMARY 30 38 8 2 with
                | none => none
                | some d4 =>
                  drawGlyph d4 w h x y GLYPH_CURSOR ACTION_PRIMARY ACTION_OUTLINE 1) ∧
    (∀ (trig : TrigModel) (d : List Nat) (w h : Nat) (x1 y1 px py : Int),
        (x1 - px) * (x1 - px) + (y1 - py) * (y1 - py) ≤ 400 →
        dragPre trig d w h x1 y1 (some px) (some py) = some d) ∧
    (∀ (trig : TrigModel) (d : List Nat) (w h : Nat) (x1 y1 px py : Int),
        (x1 - px) * (x1 - px) + (y1 - py) * (y1 - py) > 400 →
        dragPre trig d w h x1 y1 (some px) (some py) =
          drawDashedArrow trig d w h px py x1 y1 ACTION_SECONDARY 1 4 4 8 30) := by
  refine ⟨?_, ?_, ?_, ?_, ?_, ?_⟩
  · intro trig d w h x y px py hle
    simp [movementTrail, not_lt.2 hle]
  · intro trig d w h x y px py hgt
    simp [movementTrail, hgt]
  · intro trig d w h x y px py
    rfl
  · intro trig d w h x y px py
    rfl
  · intro trig d w h x1 y1 px py hle
    simp [dragPre, not_lt.2 hle]
  · intro trig d w h x1 y1 px py hgt
    simp [dragPre, hgt]

/-- Witness for C7 at concrete inputs: close points are suppressed, far
points draw the one dashed arrow. -/
theorem C7_trail_suppression_witness :
    movementTrail zeroTrig buf6x6 6 6 3 3 (some 2) (some 3) = some buf6x6 ∧
    movementTrail zeroTrig buf6x6 6 6 0 0 (some 100) (some 0) =
      drawDashedArrow zeroTrig buf6x6 6 6 100 0 0 0 ACTION_SECONDARY 2 6 4 12 30 :=
  ⟨C7_trail_suppression.1 zeroTrig buf6x6 6 6 3 3 2 3 (by decide),
    C7_trail_suppression.2.1 zeroTrig buf6x6 6 6 0 0 100 0 (by decide)⟩

/-- C8 (amended): `_draw_line` steps the segment with integer Bresenham
stepping (it is exactly the fold stamping a thick point at each stepped
point), and the stamp at each stepped point is the
`(2*(t/2)+1) × (2*(t/2)+1)` pixel square centred there — which equals
`t × t` exactly when `t` is odd (for even `t` the stamp has side
`t + 1`). -/
theorem C8_line_stamping :
    (∀ (d : List Nat) (w h : Nat) (x1 y1 x2 y2 : Int) (c : Color) (t : Nat),
        d.length = w * h * 4 →
        ∃ r, drawLine d w h x1 y1 x2 y2 c t = some r ∧
          List.foldlM (fun b p => setPixelThick b w h p.1 p.2 c t) d
            (linePts x1 y1 x2 y2) = some r) ∧
    (∀ (d : List Nat) (w h : Nat) (x y : Int) (c : Color) (t : Nat),
        setPixelThick d w h x y c t =
          List.foldlM (fun b p => setPixel b w h p.1 p.2 c) d (squarePts x y t)) ∧
    (∀ (p : Int × Int) (x y : Int) (t : Nat),
        p ∈ squarePts x y t ↔
          x - (t : Int) / 2 ≤ p.1 ∧ p.1 ≤ x + (t : Int) / 2 ∧
            y - (t : Int) / 2 ≤ p.2 ∧ p.2 ≤ y + (t : Int) / 2) ∧
    (∀ (x y : Int) (t : Nat),
        (squarePts x y t).length = (2 * (t / 2) + 1) * (2 * (t / 2) + 1)) ∧
    (∀ t : Nat, t % 2 = 1 → 2 * (t / 2) + 1 = t) := by
  refine ⟨?_, setPixelThick_eq_fold, mem_squarePts, squarePts_length, fun t ht => by omega⟩
  intro d w h x1 y1 x2 y2 c t hd
  obtain ⟨r, hr, _⟩ := drawLine_total d w h x1 y1 x2 y2 c t hd
  exact ⟨r, hr, drawLine_eq_fold d w h x1 y1 x2 y2 c t r hr⟩

/-- Witness for C8 at concrete inputs. -/
theorem C8_line_stamping_witness :
    (∃ r, drawLine buf6x6 6 6 0 0 5 3 ACTION_PRIMARY 3 = some r ∧
      List.foldlM (fun b p => setPixelThick b 6 6 p.1 p.2 ACTION_PRIMARY 3) buf6x6
        (linePts 0 0 5 3) = some r) ∧
    2 * (3 / 2) + 1 = 3 :=
  ⟨C8_line_stamping.1 buf6x6 6 6 0 0 5 3 ACTION_PRIMARY 3 (by decide),
    C8_line_stamping.2.2.2.2 3 (by decide)⟩

/-- Counterexample to C8 as frozen: with thickness `t = 2` the stamp is
the 3×3 square (9 pixels), not a `2 × 2` square (4 pixels): the stamp
equals the fold over `squarePts`, which has 9 points. -/
theorem C8_counterexample :
    setPixelThick buf6x6 6 6 3 3 ACTION_PRIMARY 2 =
      List.foldlM (fun b p => setPixel b 6 6 p.1 p.2 ACTION_PRIMARY) buf6x6
        (squarePts 3 3 2) ∧
    (squarePts 3 3 2).length = 9 ∧ 9 ≠ 2 * 2 := by
  refine ⟨setPixelThick_eq_fold buf6x6 6 6 3 3 ACTION_PRIMARY 2, by decide, by decide⟩

/-- C9: `_bgra_to_rgba` on a native-order buffer whose length is a
multiple of 4 is pure and total, preserves the length, permutes each
pixel's channels from (blue, green, red, alpha) to (red, green, blue,
alpha), and forces every output alpha byte to `255` regardless of the
source alpha. -/
theorem C9_channel_swap :
    ∀ (l : List Nat), l.length % 4 = 0 →
      (bgraToRgba l).length = l.length ∧
      ∀ k, 4 * k + 3 < l.length →
        (bgraToRgba l).getD (4 * k) 0 = l.getD (4 * k + 2) 0 ∧
        (bgraToRgba l).getD (4 * k + 1) 0 = l.getD (4 * k + 1) 0 ∧
        (bgraToRgba l).getD (4 * k + 2) 0 = l.getD (4 * k) 0 ∧
        (bgraToRgba l).getD (4 * k + 3) 0 = 255 :=
  bgraToRgba_spec

/-- Witness for C9 at a concrete two-pixel buffer with arbitrary source
alpha. -/
theorem C9_channel_swap_witness :
    (bgraToRgba [1, 2, 3, 4, 5, 6, 7, 8]).length = 8 ∧
    (bgraToRgba [1, 2, 3, 4, 5, 6, 7, 8]).getD 0 0 = 3 ∧
    (bgraToRgba [1, 2, 3, 4, 5, 6, 7, 8]).getD 3 0 = 255 ∧
    (bgraToRgba [1, 2, 3, 4, 5, 6, 7, 8]).getD 7 0 = 255 :=
  ⟨(C9_channel_swap [1, 2, 3, 4, 5, 6, 7, 8] (by decide)).1,
    ((C9_channel_swap [1, 2, 3, 4, 5, 6, 7, 8] (by decide)).2 0 (by decide)).1,
    ((C9_channel_swap [1, 2, 3, 4, 5, 6, 7, 8] (by decide)).2 0 (by decide)).2.2.2,
    ((C9_channel_swap [1, 2, 3, 4, 5, 6, 7, 8] (by decide)).2 1 (by decide)).2.2.2⟩

/-- C10 (amended): every in-bounds pixel written with the outline color
(the glyph `'.'` cells) is stored with alpha `200`, not `255`; a glyph
whose `'.'` cell lands in-bounds leaves a non-fully-opaque pixel there
(e.g. the cursor glyph, both in isolation and through the full
`left_click(500,500)` annotation pass on an all-opaque buffer).  But —
contrary to the frozen claim — drawing a glyph in-bounds does *not*
imply the final image has non-opaque pixels: the I-beam glyph has no
`'.'` cells, and a clipped glyph may have only `'#'` cells in-bounds
(see `C10_counterexample`). -/
theorem C10_outline_alpha :
    ACTION_OUTLINE.a = 200 ∧ (200 : Nat) ≠ 255 ∧
    (∀ (d : List Nat) (w h : Nat) (x y : Int), d.length = w * h * 4 →
        0 ≤ x → x < (w : Int) → 0 ≤ y → y < (h : Int) →
        ∃ d', setPixel d w h x y ACTION_OUTLINE = some d' ∧
          d'.getD ((y * w + x) * 4 + 3).toNat 0 = 200) ∧
    ((drawGlyph buf6x6 6 6 0 0 GLYPH_CURSOR ACTION_PRIMARY ACTION_OUTLINE 1).getD []).getD
        ((2 * 6 + 1) * 4 + 3) 0 = 200 ∧
    ((applyAnns zeroTrig buf6x6 6 6 [("left_click(500,500)").toList]).getD []).getD
        ((5 * 6 + 4) * 4 + 3) 0 = 200 := by
  refine ⟨rfl, by decide, ?_, by decide, by decide⟩
  intro d w h x y hd hx0 hx hy0 hy
  exact setPixel_alpha d w h x y ACTION_OUTLINE hd hx0 hx hy0 hy

/-- Witness for C10 at a concrete input. -/
theorem C10_outline_alpha_witness :
    ∃ d', setPixel buf6x6 6 6 2 1 ACTION_OUTLINE = some d' ∧
      d'.getD ((((1 : Int) * 6 + 2) * 4 + 3).toNat) 0 = 200 :=
  C10_outline_alpha.2.2.1 buf6x6 6 6 2 1 (by decide) (by decide) (by decide) (by decide)
    (by decide)

/-- The 8×6 buffer produced by annotating `right_click(999,999)` then
`type(0)` on an all-opaque buffer (verified below): the primary-colored
pixels are the in-bounds cells of the clipped right-cursor glyph and of
the I-beam glyph. -/
def c10res : List Nat :=
  [255, 255, 255, 255, 255, 255, 255, 255, 255, 255, 255, 255, 255, 255, 255, 255,
   255, 255, 255, 255, 255, 255, 255, 255, 255, 50, 200, 255, 255, 50, 200, 255,
   255, 255, 255, 255, 255, 255, 255, 255, 255, 255, 255, 255, 255, 255, 255, 255,
   255, 255, 255, 255, 255, 255, 255, 255, 255, 50, 200, 255, 255, 50, 200, 255,
   255, 255, 255, 255, 255, 255, 255, 255, 255, 255, 255, 255, 255, 255, 255, 255,
   255, 255, 255, 255, 255, 255, 255, 255, 255, 50, 200, 255, 255, 50, 200, 255,
   255, 255, 255, 255, 255, 255, 255, 255, 255, 255, 255, 255, 255, 255, 255, 255,
   255, 255, 255, 255, 255, 255, 255, 255, 255, 50, 200, 255, 255, 50, 200, 255,
   255, 255, 255, 255, 255, 255, 255, 255, 255, 255, 255, 255, 255, 255, 255, 255,
   255, 255, 255, 255, 255, 255, 255, 255, 255, 50, 200, 255, 255, 50, 200, 255,
   255, 255, 255, 255, 255, 255, 255, 255, 255, 255, 255, 255, 255, 255, 255, 255,
   255, 255, 255, 255, 255, 255, 255, 255, 255, 50, 200, 255, 255, 50, 200, 255]

/-- Counterexample to C10 as frozen: on an 8×6 all-opaque buffer, the
sequence `right_click(999,999)` then `type(0)` draws glyphs with
in-bounds cells (the right-cursor glyph's corner `'#'` cell is written —
its pixel carries the primary color afterwards — and part of the I-beam
glyph is in-bounds), yet every alpha byte of the final buffer is still
`255`: no non-opaque pixel exists in the image. -/
theorem C10_counterexample :
    applyAnns zeroTrig buf8x6 8 6
        [("right_click(999,999)").toList, ("type(0)").toList] = some c10res ∧
    c10res.getD ((5 * 8 + 7) * 4 + 1) 0 = 50 ∧
    (∀ j < 192, j % 4 = 3 → c10res.getD j 0 = 255) := by
  refine ⟨by decide, by decide, by decide⟩

end Franz
